import Mathlib

/-!
Verification development for the vibe-clock pipeline
(`src/vibe_clock/models.py`, `aggregator.py`, `sanitizer.py`,
`collectors/claude_code.py`).

Modelling conventions, used throughout and noted at each definition:

* Timezone-aware UTC datetimes are modelled as integer epoch seconds (`ℤ`).
  Comparison, `.date()` (epoch day, floor division by 86400) and `.hour`
  are exact under this encoding.
* Python `float` minute quantities are modelled exactly: durations are kept
  in integer seconds (`duration_minutes` is `seconds / 60`, which the code
  only accumulates, compares and finally rounds), and values rounded with
  `round(x, 1)` are represented as integers in units of 0.1 minute
  ("deci-minutes"), rounded half-to-even like Python's `round`.
  No claim in scope depends on binary floating point representation.
* Python strings are `List Char`.
* Parsing of ISO strings (`date.fromisoformat`, `datetime.fromisoformat`)
  is modelled by `Option` values: `none` means the string fails to parse
  (raises `ValueError`), `some v` means it parses to the instant/day `v`.
-/

namespace VibeClock

/-- `models.py` `TokenUsage`: four integer counters (pydantic `int` fields,
default 0). -/
structure TokenUsage where
  input_tokens : ℤ := 0
  output_tokens : ℤ := 0
  cache_read_tokens : ℤ := 0
  cache_write_tokens : ℤ := 0
  deriving DecidableEq

/-- `TokenUsage.total`: sum of the four counters. -/
def TokenUsage.total (t : TokenUsage) : ℤ :=
  t.input_tokens + t.output_tokens + t.cache_read_tokens + t.cache_write_tokens

/-- The all-zero `TokenUsage()` value. -/
def tuZero : TokenUsage := ⟨0, 0, 0, 0⟩

/-- `aggregator.py` `_add_tokens`: field-wise addition (the in-place mutation
of `target` becomes a functional update). -/
def addTokens (target source : TokenUsage) : TokenUsage :=
  ⟨target.input_tokens + source.input_tokens,
   target.output_tokens + source.output_tokens,
   target.cache_read_tokens + source.cache_read_tokens,
   target.cache_write_tokens + source.cache_write_tokens⟩

/-- `models.py` `Session`. `start_time`/`end_time` are epoch seconds;
`end_time = none` models the absent end time. -/
structure Session where
  session_id : List Char
  agent : List Char
  start_time : ℤ
  end_time : Option ℤ := none
  model : List Char
  project : List Char
  message_count : ℤ := 0
  tokens : TokenUsage := tuZero
  deriving DecidableEq

/-- `Session.duration_minutes`, kept in exact seconds: the property returns
`(end_time - start_time).total_seconds() / 60.0`, or `0.0` with no end time.
All aggregator uses of it (accumulation, comparison, final rounding) factor
through this exact seconds value. -/
def Session.durationSeconds (s : Session) : ℤ :=
  match s.end_time with
  | none => 0
  | some e => e - s.start_time

/-- `config.py` `PrivacyConfig` (the fields the aggregator and sanitizer
read). A date-range entry is a list of ISO date strings, each modelled by
its parse result in epoch days (`none` = malformed string). -/
structure PrivacyConfig where
  exclude_projects : List (List Char) := []
  exclude_date_ranges : List (List (Option ℤ)) := []
  anonymize_projects : Bool := true
  deriving DecidableEq

/-- `config.py` `Config` (the fields consumed by the aggregator and
sanitizer; paths/github/schedule sections are I/O configuration outside the
claims' scope). -/
structure Config where
  default_days : ℤ := 30
  privacy : PrivacyConfig := {}
  deriving DecidableEq

/-- `models.py` `DailyActivity` (`total_minutes` in deci-minutes). -/
structure DailyActivity where
  date : ℤ
  session_count : ℤ := 0
  message_count : ℤ := 0
  total_minutes : ℤ := 0
  tokens : TokenUsage := tuZero
  deriving DecidableEq

/-- `models.py` `ModelBreakdown` (`total_minutes` in deci-minutes). -/
structure ModelBreakdown where
  model : List Char
  session_count : ℤ := 0
  message_count : ℤ := 0
  total_minutes : ℤ := 0
  tokens : TokenUsage := tuZero
  deriving DecidableEq

/-- `models.py` `ProjectBreakdown` (`total_minutes` in deci-minutes). -/
structure ProjectBreakdown where
  project : List Char
  agent : List Char
  session_count : ℤ := 0
  total_minutes : ℤ := 0
  tokens : TokenUsage := tuZero
  deriving DecidableEq

/-- `models.py` `AgentStats`. `generated_at` is epoch seconds; the
`generated_at` default factory `datetime.now(UTC)` is modelled by the
aggregator passing the current instant explicitly. The `hourly` field
default is `[0] * 24`, exactly as in the source. -/
structure AgentStats where
  generated_at : ℤ := 0
  days_covered : ℤ := 30
  total_sessions : ℤ := 0
  total_messages : ℤ := 0
  total_minutes : ℤ := 0
  total_tokens : TokenUsage := tuZero
  active_agents : List (List Char) := []
  favorite_model : List Char := []
  peak_hour : ℤ := 0
  longest_session_minutes : ℤ := 0
  hourly : List ℤ := List.replicate 24 0
  daily : List DailyActivity := []
  models : List ModelBreakdown := []
  projects : List ProjectBreakdown := []
  deriving DecidableEq

/-! ### Time helpers

`datetime.date()` and `datetime.hour` for a UTC instant in epoch seconds. -/

/-- Epoch day of an instant (`start_time.date()`). -/
def dateOf (t : ℤ) : ℤ := t.fdiv 86400

/-- Hour of day 0–23 of an instant (`start_time.hour`). -/
def hourOf (t : ℤ) : ℤ := (t - 86400 * t.fdiv 86400).fdiv 3600

/-! ### Glob matching

`fnmatch.fnmatch(name, pat)` on POSIX (where `os.path.normcase` is the
identity): `*` matches any sequence, `?` any single character, `[...]` a
character class (leading `!` negates; `a-b` is a range; a class starting
with `]` contains `]`; an unterminated `[` is a literal `[`), anchored at
both ends. Implemented with explicit fuel for structural termination; the
initial fuel is always sufficient since every step consumes pattern or
text. -/

/-- Scan a character class body after `[` (and after the optional `!` and a
possible leading `]` literal handled by the caller): returns the accepted
(char, char) ranges and the rest of the pattern after `]`, or `none` if the
class is unterminated. -/
def scanClass : List Char → List (Char × Char) → Option (List (Char × Char) × List Char)
  | [], _ => none
  | ']' :: rest, acc => some (acc, rest)
  | a :: '-' :: b :: rest, acc =>
    if b = ']' then some ((a, a) :: ('-', '-') :: acc, rest)
    else scanClass rest ((a, b) :: acc)
  | a :: rest, acc => scanClass rest ((a, a) :: acc)

/-- Does a character fall in one of the ranges? -/
def inRanges (c : Char) (rs : List (Char × Char)) : Bool :=
  rs.any fun r => r.1 ≤ c ∧ c ≤ r.2

/-- Fueled core of the glob matcher. -/
def globAux : Nat → List Char → List Char → Bool
  | 0, _, _ => false
  | _ + 1, [], [] => true
  | fuel + 1, '*' :: p, s =>
    globAux fuel p s || (match s with
      | [] => false
      | _ :: s' => globAux fuel ('*' :: p) s')
  | fuel + 1, '?' :: p, _ :: s => globAux fuel p s
  | fuel + 1, '[' :: p, c :: s =>
    (match p with
      | '!' :: ']' :: p' =>
        (match scanClass p' [(']', ']')] with
          | some (rs, rest) => !inRanges c rs && globAux fuel rest s
          | none => '[' = c && globAux fuel p s)
      | '!' :: p' =>
        (match scanClass p' [] with
          | some (rs, rest) => !inRanges c rs && globAux fuel rest s
          | none => '[' = c && globAux fuel p s)
      | ']' :: p' =>
        (match scanClass p' [(']', ']')] with
          | some (rs, rest) => inRanges c rs && globAux fuel rest s
          | none => '[' = c && globAux fuel p s)
      | _ =>
        (match scanClass p [] with
          | some (rs, rest) => inRanges c rs && globAux fuel rest s
          | none => '[' = c && globAux fuel p s))
  | fuel + 1, c :: p, c' :: s => c = c' && globAux fuel p s
  | _ + 1, _ :: _, [] => false
  | _ + 1, [], _ :: _ => false

/-- `fnmatch.fnmatch(s, p)` model. -/
def globMatch (p s : List Char) : Bool :=
  globAux (p.length + s.length + 1) p s

/-! ### Aggregator (`aggregator.py` `aggregate`)

The impure `datetime.now(timezone.utc)` becomes the explicit parameter
`now`; everything else is a pure fold, stated stage by stage exactly as in
the source. Python's insertion-ordered `dict` / `defaultdict` accumulators
become association lists updated in place and extended at the end. -/

/-- `cutoff = datetime.now(timezone.utc) - timedelta(days=days)`. -/
def cutoffOf (now : ℤ) (cfg : Config) : ℤ := now - cfg.default_days * 86400

/-- Stage 1: `[s for s in sessions if s.start_time >= cutoff]`. -/
def windowFilter (now : ℤ) (cfg : Config) (sessions : List Session) : List Session :=
  sessions.filter fun s => cutoffOf now cfg ≤ s.start_time

/-- One pass of the excluded-date-range loop: a range applies only when it
has exactly two entries and both parse (otherwise the `try`/`except` or the
length test leaves `filtered` unchanged); then sessions whose start date
falls in `[start, end]` are dropped. -/
def dateRangeFilterOne (dr : List (Option ℤ)) (l : List Session) : List Session :=
  match dr with
  | [some a, some b] =>
    l.filter fun s => !(a ≤ dateOf s.start_time && dateOf s.start_time ≤ b)
  | _ => l

/-- Stage 2: the `for dr in config.privacy.exclude_date_ranges` loop. -/
def dateRangesFilter (ranges : List (List (Option ℤ))) (l : List Session) : List Session :=
  ranges.foldl (fun acc dr => dateRangeFilterOne dr acc) l

/-- `any(fnmatch.fnmatch(s.project, pat) for pat in exclude_projects)`. -/
def matchesAnyPattern (proj : List Char) (pats : List (List Char)) : Bool :=
  pats.any fun pat => globMatch pat proj

/-- Stage 3: the excluded-projects filter (guarded by the truthiness test on
the pattern list, as in the source). -/
def projectFilter (cfg : Config) (l : List Session) : List Session :=
  if cfg.privacy.exclude_projects.isEmpty then l
  else l.filter fun s => !matchesAnyPattern s.project cfg.privacy.exclude_projects

/-- The composed window/date-range/project filtering pipeline of
`aggregate` (lines 22–51). -/
def filteredSessions (now : ℤ) (cfg : Config) (sessions : List Session) : List Session :=
  projectFilter cfg (dateRangesFilter cfg.privacy.exclude_date_ranges (windowFilter now cfg sessions))

/-- `aggregator.py` `_DailyAcc` (minutes kept in exact seconds). -/
structure DailyAcc where
  session_count : ℤ := 0
  message_count : ℤ := 0
  total_seconds : ℤ := 0
  tokens : TokenUsage := tuZero
  deriving DecidableEq

/-- `aggregator.py` `_ModelAcc` (minutes kept in exact seconds). -/
structure ModelAcc where
  session_count : ℤ := 0
  message_count : ℤ := 0
  total_seconds : ℤ := 0
  tokens : TokenUsage := tuZero
  deriving DecidableEq

/-- `aggregator.py` `_ProjectAcc` (minutes kept in exact seconds). -/
structure ProjectAcc where
  session_count : ℤ := 0
  total_seconds : ℤ := 0
  tokens : TokenUsage := tuZero
  deriving DecidableEq

/-- `defaultdict` access-then-mutate: find the key (insertion order
preserved), apply `f`; a missing key is first created with the default `d`.
New keys go to the end, as in an insertion-ordered Python dict. -/
def updateAssoc {κ α : Type} [DecidableEq κ] (m : List (κ × α)) (k : κ) (d : α) (f : α → α) :
    List (κ × α) :=
  match m with
  | [] => [(k, f d)]
  | (k', v) :: rest => if k' = k then (k', f v) :: rest else (k', v) :: updateAssoc rest k d f

/-- The mutable loop state of `aggregate`'s single pass (lines 56–98). -/
structure AggState where
  daily : List (ℤ × DailyAcc) := []
  models : List (List Char × ModelAcc) := []
  projects : List ((List Char × List Char) × ProjectAcc) := []
  hours : List (ℤ × ℤ) := []
  agents : List (List Char) := []
  longestSeconds : ℤ := 0
  total_tokens : TokenUsage := tuZero
  total_messages : ℤ := 0
  deriving DecidableEq

/-- `agents_seen.add(...)`: the set is modelled as a duplicate-free list in
first-insertion order (only its sorted form is observable). -/
def insertAgent (l : List (List Char)) (a : List Char) : List (List Char) :=
  if a ∈ l then l else l ++ [a]

/-- One iteration of `for s in filtered:` (lines 67–98). -/
def stepSession (st : AggState) (s : Session) : AggState :=
  let d := dateOf s.start_time
  let dur := s.durationSeconds
  { daily := updateAssoc st.daily d {} fun a =>
      { session_count := a.session_count + 1
        message_count := a.message_count + s.message_count
        total_seconds := a.total_seconds + dur
        tokens := addTokens a.tokens s.tokens }
    models := updateAssoc st.models s.model {} fun a =>
      { session_count := a.session_count + 1
        message_count := a.message_count + s.message_count
        total_seconds := a.total_seconds + dur
        tokens := addTokens a.tokens s.tokens }
    projects := updateAssoc st.projects (s.project, s.agent) {} fun a =>
      { session_count := a.session_count + 1
        total_seconds := a.total_seconds + dur
        tokens := addTokens a.tokens s.tokens }
    hours := updateAssoc st.hours (hourOf s.start_time) 0 (· + 1)
    agents := insertAgent st.agents s.agent
    longestSeconds := if st.longestSeconds < dur then dur else st.longestSeconds
    total_tokens := addTokens st.total_tokens s.tokens
    total_messages := st.total_messages + s.message_count }

/-- Round `a / b` (with `b > 0`) to the nearest integer, half to even:
the exact-value behaviour of Python's `round`. -/
def roundHalfEvenDiv (a b : ℤ) : ℤ :=
  let q := a.fdiv b
  let r := a - q * b
  if 2 * r < b then q
  else if b < 2 * r then q + 1
  else if q % 2 = 0 then q else q + 1

/-- `round(seconds / 60, 1)` expressed in deci-minutes: round `seconds / 6`
to the nearest integer. -/
def deciMinutesOfSeconds (s : ℤ) : ℤ := roundHalfEvenDiv s 6

/-- Python's `max(xs, key=f)`: the first element attaining the maximal key
(later elements replace the running best only when strictly greater). -/
def maxByFirst {α : Type} (f : α → ℤ) : List α → Option α
  | [] => none
  | x :: xs => some (xs.foldl (fun best y => if f best < f y then y else best) x)

/-- Python string `<=` (lexicographic by code point), for `sorted(...)`. -/
def strLe : List Char → List Char → Bool
  | [], _ => true
  | _ :: _, [] => false
  | a :: as, b :: bs => if a = b then strLe as bs else decide (a < b)

/-- Lines 53–164 of `aggregate`, as a function of the already-filtered
session list: the empty guard, the single accumulation pass, peak hour,
favorite model, the three sorted breakdown lists and the assembled
`AgentStats`. The `hourly` field is not among the constructor arguments in
the source, so the pydantic default `[0] * 24` applies (left implicit here
exactly as there). -/
def aggregateOfFiltered (now : ℤ) (cfg : Config) (filtered : List Session) : AgentStats :=
  let days := cfg.default_days
  if filtered.isEmpty then { generated_at := now, days_covered := days }
  else
    let st := filtered.foldl stepSession {}
    let peak : ℤ := match maxByFirst (fun p : ℤ × ℤ => p.2) st.hours with
      | some p => p.1
      | none => 0
    let favorite : List Char :=
      match maxByFirst (fun p : (List Char) × ModelAcc => p.2.session_count) st.models with
      | some p => p.1
      | none => []
    { generated_at := now
      days_covered := days
      total_sessions := filtered.length
      total_messages := st.total_messages
      total_minutes := deciMinutesOfSeconds (filtered.map Session.durationSeconds).sum
      total_tokens := st.total_tokens
      active_agents := List.insertionSort (fun a b => strLe a b = true) st.agents
      favorite_model := favorite
      peak_hour := peak
      longest_session_minutes := deciMinutesOfSeconds st.longestSeconds
      daily := List.insertionSort (fun a b : DailyActivity => a.date ≤ b.date)
        (st.daily.map fun p =>
          { date := p.1
            session_count := p.2.session_count
            message_count := p.2.message_count
            total_minutes := deciMinutesOfSeconds p.2.total_seconds
            tokens := p.2.tokens })
      models := List.insertionSort (fun a b : ModelBreakdown => b.session_count ≤ a.session_count)
        (st.models.map fun p =>
          { model := p.1
            session_count := p.2.session_count
            message_count := p.2.message_count
            total_minutes := deciMinutesOfSeconds p.2.total_seconds
            tokens := p.2.tokens })
      projects := List.insertionSort (fun a b : ProjectBreakdown => b.total_minutes ≤ a.total_minutes)
        (st.projects.map fun p =>
          { project := p.1.1
            agent := p.1.2
            session_count := p.2.session_count
            total_minutes := deciMinutesOfSeconds p.2.total_seconds
            tokens := p.2.tokens }) }

/-- `aggregator.py` `aggregate(sessions, config)` with the ambient clock
passed explicitly. -/
def aggregate (now : ℤ) (cfg : Config) (sessions : List Session) : AgentStats :=
  aggregateOfFiltered now cfg (filteredSessions now cfg sessions)

/-! ### Claude Code collector (`collectors/claude_code.py`)

One parsed JSONL record, restricted to the fields `_process_record` reads.
`sessionId` and `type` model `record.get(...)` (`none` = key absent; the
empty string is falsy for the `if not session_id` test). `timestamp`
models `record.get("timestamp")` composed with `fromisoformat`: `none` =
key absent or falsy, `some none` = present but unparseable (`ValueError`),
`some (some t)` = parses to instant `t`. The `message.usage` counter reads
`usage.get(k, 0)` are flattened into four integer fields, and
`message.get("model", "unknown")` into `model` (`none` = key absent, so the
default `"unknown"` applies). -/
structure CCRecord where
  sessionId : Option (List Char) := none
  recType : Option (List Char) := none
  timestamp : Option (Option ℤ) := none
  model : Option (List Char) := none
  usage_input : ℤ := 0
  usage_output : ℤ := 0
  usage_cache_read : ℤ := 0
  usage_cache_write : ℤ := 0
  deriving DecidableEq

/-- `claude_code.py` `_SessionAcc`. -/
structure SessionAcc where
  session_id : List Char
  project : List Char
  message_count : ℤ := 0
  timestamps : List ℤ := []
  tokens : TokenUsage := tuZero
  models : List (List Char × ℤ) := []
  deriving DecidableEq

/-- The string `"unknown"`. -/
def unknownStr : List Char := "unknown".toList

/-- The string `"assistant"`. -/
def assistantStr : List Char := "assistant".toList

/-- `ClaudeCodeCollector._process_record`: skip records without a truthy
`sessionId`, of non-`assistant` type, or without a parseable timestamp;
otherwise create the accumulator on first sight and fold the record in.
The `sessions` dict is an insertion-ordered association list. -/
def processRecord (r : CCRecord) (projectSlug : List Char)
    (sessions : List (List Char × SessionAcc)) : List (List Char × SessionAcc) :=
  match r.sessionId with
  | none => sessions
  | some sid =>
    if sid = [] then sessions
    else if r.recType ≠ some assistantStr then sessions
    else
      let model := r.model.getD unknownStr
      match r.timestamp with
      | none => sessions
      | some none => sessions
      | some (some ts) =>
        let base := if sessions.any (fun p => p.1 = sid) then sessions
          else sessions ++ [(sid, { session_id := sid, project := projectSlug })]
        updateAssoc base sid { session_id := sid, project := projectSlug } fun acc =>
          { acc with
            message_count := acc.message_count + 1
            timestamps := acc.timestamps ++ [ts]
            tokens := addTokens acc.tokens
              ⟨r.usage_input, r.usage_output, r.usage_cache_read, r.usage_cache_write⟩
            models := if model ≠ unknownStr then updateAssoc acc.models model 0 (· + 1)
              else acc.models }

/-- `_SessionAcc.to_session` (the `datetime.now` fallback for an empty
timestamp list takes the ambient clock explicitly). -/
def toSession (now : ℤ) (acc : SessionAcc) : Session :=
  let startEnd : ℤ × Option ℤ :=
    match acc.timestamps with
    | [] => (now, none)
    | t :: ts => (ts.foldl min t, some (ts.foldl max t))
  let model : List Char :=
    match maxByFirst (fun p : (List Char) × ℤ => p.2) acc.models with
    | some p => p.1
    | none => unknownStr
  { session_id := acc.session_id
    agent := "claude_code".toList
    start_time := startEnd.1
    end_time := startEnd.2
    model := model
    project := acc.project
    message_count := acc.message_count
    tokens := acc.tokens }

/-- `ClaudeCodeCollector.collect` restricted to the record stream of one
project directory (directory walking and per-line JSON decoding are I/O;
`records` is the list of successfully decoded records in file order). -/
def processRecords (now : ℤ) (projectSlug : List Char) (records : List CCRecord) : List Session :=
  (records.foldl (fun m r => processRecord r projectSlug m) []).map fun p => toSession now p.2

/-! ### JSON serialization (`AgentStats.model_dump_json`)

Pydantic's `model_dump_json` is modelled concretely: one JSON object with
the fields in declaration order, strings quoted verbatim (JSON escaping
never fires on the path/username material the sanitizer scans for),
datetimes in ISO-8601, dates as `YYYY-MM-DD`, deci-minute integers printed
with one decimal place. The sanitizer claims depend only on the positions
of the `models` and `projects` arrays and the structural characters
surrounding each array element, which this model renders faithfully. -/

/-- Decimal digits of a natural number. -/
def renderNat (n : ℕ) : List Char := Nat.toDigits 10 n

/-- Decimal rendering of an integer. -/
def renderInt (i : ℤ) : List Char :=
  if i < 0 then '-' :: renderNat i.natAbs else renderNat i.natAbs

/-- One-decimal rendering of a deci-minute quantity (`12.5` for `125`). -/
def renderDeci (d : ℤ) : List Char :=
  (if d < 0 then ['-'] else []) ++ renderNat (d.natAbs / 10) ++ '.' :: renderNat (d.natAbs % 10)

/-- Left-pad with zeroes to two digits (for month/day/hour/minute/second). -/
def pad2 (n : ℤ) : List Char :=
  let s := renderNat n.natAbs
  if s.length < 2 then '0' :: s else s

/-- Left-pad with zeroes to four digits (for the year). -/
def pad4 (n : ℤ) : List Char :=
  let s := renderNat n.natAbs
  List.replicate (4 - s.length) '0' ++ s

/-- Civil date (year, month, day) of an epoch day (standard civil-from-days
algorithm on integers). -/
def civilFromDays (z0 : ℤ) : ℤ × ℤ × ℤ :=
  let z := z0 + 719468
  let era := z.fdiv 146097
  let doe := z - era * 146097
  let yoe := (doe - doe.fdiv 1460 + doe.fdiv 36524 - doe.fdiv 146096).fdiv 365
  let y := yoe + era * 400
  let doy := doe - (365 * yoe + yoe.fdiv 4 - yoe.fdiv 100)
  let mp := (5 * doy + 2).fdiv 153
  let d := doy - (153 * mp + 2).fdiv 5 + 1
  let m := mp + (if mp < 10 then 3 else -9)
  (y + (if m ≤ 2 then 1 else 0), m, d)

/-- `YYYY-MM-DD` for an epoch day. -/
def isoDate (day : ℤ) : List Char :=
  let c := civilFromDays day
  pad4 c.1 ++ '-' :: pad2 c.2.1 ++ '-' :: pad2 c.2.2

/-- ISO-8601 UTC instant for epoch seconds. -/
def isoDatetime (t : ℤ) : List Char :=
  let day := t.fdiv 86400
  let sod := t - 86400 * day
  isoDate day ++ 'T' :: pad2 (sod.fdiv 3600) ++ ':' :: pad2 ((sod.fdiv 60) % 60)
    ++ ':' :: pad2 (sod % 60) ++ ['Z']

/-- JSON string value (quoted). -/
def renderStr (s : List Char) : List Char := '"' :: (s ++ ['"'])

/-- Comma-join of already-rendered JSON values. -/
def joinComma : List (List Char) → List Char
  | [] => []
  | [x] => x
  | x :: y :: xs => x ++ ',' :: joinComma (y :: xs)

/-- JSON object braces around rendered members. -/
def wrapBrace (inner : List Char) : List Char := '{' :: (inner ++ ['}'])

/-- JSON array around rendered elements. -/
def renderArr (elems : List (List Char)) : List Char := '[' :: (joinComma elems ++ [']'])

/-- JSON object for a `TokenUsage`. -/
def renderTU (t : TokenUsage) : List Char :=
  wrapBrace ("\"input_tokens\":".toList ++ renderInt t.input_tokens
    ++ ",\"output_tokens\":".toList ++ renderInt t.output_tokens
    ++ ",\"cache_read_tokens\":".toList ++ renderInt t.cache_read_tokens
    ++ ",\"cache_write_tokens\":".toList ++ renderInt t.cache_write_tokens)

/-- JSON object for a `DailyActivity`. -/
def renderDaily (a : DailyActivity) : List Char :=
  wrapBrace ("\"date\":".toList ++ renderStr (isoDate a.date)
    ++ ",\"session_count\":".toList ++ renderInt a.session_count
    ++ ",\"message_count\":".toList ++ renderInt a.message_count
    ++ ",\"total_minutes\":".toList ++ renderDeci a.total_minutes
    ++ ",\"tokens\":".toList ++ renderTU a.tokens)

/-- JSON object for a `ModelBreakdown`. -/
def renderModelEntry (m : ModelBreakdown) : List Char :=
  wrapBrace ("\"model\":".toList ++ renderStr m.model
    ++ ",\"session_count\":".toList ++ renderInt m.session_count
    ++ ",\"message_count\":".toList ++ renderInt m.message_count
    ++ ",\"total_minutes\":".toList ++ renderDeci m.total_minutes
    ++ ",\"tokens\":".toList ++ renderTU m.tokens)

/-- JSON object for a `ProjectBreakdown`. -/
def renderProjEntry (p : ProjectBreakdown) : List Char :=
  wrapBrace ("\"project\":".toList ++ renderStr p.project
    ++ ",\"agent\":".toList ++ renderStr p.agent
    ++ ",\"session_count\":".toList ++ renderInt p.session_count
    ++ ",\"total_minutes\":".toList ++ renderDeci p.total_minutes
    ++ ",\"tokens\":".toList ++ renderTU p.tokens)

/-- Everything of the serialized `AgentStats` that precedes the `models`
array, ending with the separating comma. `models` and `projects` are the
last two fields in declaration order. -/
def preModels (st : AgentStats) : List Char :=
  '{' :: ("\"generated_at\":".toList ++ renderStr (isoDatetime st.generated_at)
    ++ ",\"days_covered\":".toList ++ renderInt st.days_covered
    ++ ",\"total_sessions\":".toList ++ renderInt st.total_sessions
    ++ ",\"total_messages\":".toList ++ renderInt st.total_messages
    ++ ",\"total_minutes\":".toList ++ renderDeci st.total_minutes
    ++ ",\"total_tokens\":".toList ++ renderTU st.total_tokens
    ++ ",\"active_agents\":".toList ++ renderArr (st.active_agents.map renderStr)
    ++ ",\"favorite_model\":".toList ++ renderStr st.favorite_model
    ++ ",\"peak_hour\":".toList ++ renderInt st.peak_hour
    ++ ",\"longest_session_minutes\":".toList ++ renderDeci st.longest_session_minutes
    ++ ",\"hourly\":".toList ++ renderArr (st.hourly.map renderInt)
    ++ ",\"daily\":".toList ++ renderArr (st.daily.map renderDaily)
    ++ [','])

/-- The literal `"models":[`. -/
def modelsHeader : List Char := "\"models\":[".toList

/-- The literal `],"projects":[`. -/
def projectsHeader : List Char := "],\"projects\":[".toList

/-- The literal `]}` closing the projects array and the object. -/
def tailBrace : List Char := [']', '}']

/-- `stats.model_dump_json()`. -/
def sJson (st : AgentStats) : List Char :=
  preModels st ++ modelsHeader ++ joinComma (st.models.map renderModelEntry)
    ++ projectsHeader ++ joinComma (st.projects.map renderProjEntry) ++ tailBrace

/-! ### Sanitizer (`sanitizer.py`)

The module-level ambient state `_HOME_DIR = str(Path.home())` and
`_USERNAME = getpass.getuser()` is passed as an explicit environment. -/

/-- The ambient home directory and username read at module import. -/
structure SanEnv where
  home : List Char
  username : List Char
  deriving DecidableEq

/-- The literal `/home/`. -/
def homeSlash : List Char := "/home/".toList

/-- The literal `/Users/`. -/
def usersSlash : List Char := "/Users/".toList

/-- The `path_blocklist` of `_validate_no_pii`: the home directory, the
`/home/{username}` variant when distinct from it, and `/Users/{username}`. -/
def pathBlocklist (env : SanEnv) : List (List Char) :=
  [env.home]
    ++ (if env.home ≠ homeSlash ++ env.username then [homeSlash ++ env.username] else [])
    ++ [usersSlash ++ env.username]

/-- Executable prefix test. -/
def isPrefixB : List Char → List Char → Bool
  | [], _ => true
  | _ :: _, [] => false
  | a :: as, b :: bs => a = b && isPrefixB as bs

/-- Executable substring test (`small in big` on Python strings). -/
def isSubB (small : List Char) : List Char → Bool
  | [] => small.isEmpty
  | c :: rest => isPrefixB small (c :: rest) || isSubB small rest

/-- Right word boundary `(?![a-zA-Z])`: the remainder is empty or starts
with a non-letter. -/
def rightOkB : List Char → Bool
  | [] => true
  | c :: _ => !c.isAlpha

/-- Does the token `u` match at the head of `s` with a right boundary? -/
def tokenAtB (u s : List Char) : Bool := isPrefixB u s && rightOkB (s.drop u.length)

/-- Scan for a word-boundary occurrence; `prevOk` records whether the
character before the current position is absent or a non-letter
(`(?<![a-zA-Z])`). -/
def hasTokenFrom (u : List Char) (prevOk : Bool) : List Char → Bool
  | [] => false
  | c :: rest => (prevOk && tokenAtB u (c :: rest)) || hasTokenFrom u (!c.isAlpha) rest

/-- `re.search` of `(?<![a-zA-Z]){username}(?![a-zA-Z])` on `s`. -/
def hasToken (s u : List Char) : Bool := hasTokenFrom u true s

/-- A character allowed inside a `_PATH_PATTERN` segment: `[a-zA-Z0-9._-]`. -/
def segChar (c : Char) : Bool := c.isAlphanum || c = '.' || c = '_' || c = '-'

/-- Consume `/` followed by at least one segment character; return the rest. -/
def takeSeg : List Char → Option (List Char)
  | '/' :: c :: rest => if segChar c then some (rest.dropWhile segChar) else none
  | _ => none

/-- Does `(/[a-zA-Z0-9._-]+){2,}` match at the head of `s`? -/
def twoSegsAt (s : List Char) : Bool :=
  match takeSeg s with
  | some rest => (takeSeg rest).isSome
  | none => false

/-- `_PATH_PATTERN.search`: two or more `/segment` components anywhere. -/
def hasPathFrag : List Char → Bool
  | [] => false
  | c :: rest => twoSegsAt (c :: rest) || hasPathFrag rest

/-- Equality of `Except` results is decidable componentwise. -/
instance exceptDecEq {ε α : Type} [DecidableEq ε] [DecidableEq α] : DecidableEq (Except ε α) :=
  fun x y =>
    match x, y with
    | .ok a, .ok b =>
      if h : a = b then .isTrue (by rw [h])
      else .isFalse (by intro hh; exact h (Except.ok.inj hh))
    | .error a, .error b =>
      if h : a = b then .isTrue (by rw [h])
      else .isFalse (by intro hh; exact h (Except.error.inj hh))
    | .ok _, .error _ => .isFalse (by intro hh; exact Except.noConfusion hh)
    | .error _, .ok _ => .isFalse (by intro hh; exact Except.noConfusion hh)

/-- The distinct failure causes `_validate_no_pii` can raise. -/
inductive PIIErr where
  | pathLeak (blocked : List Char)
  | usernameLeak
  | pathFragment (project : List Char)
  deriving DecidableEq

/-- `_validate_no_pii(stats)`: serialize, check the path blocklist (in
order), then the username word-boundary pattern for usernames of length at
least 3, then path-like project names; `none` means no error raised. -/
def validateNoPii (env : SanEnv) (stats : AgentStats) : Option PIIErr :=
  let js := sJson stats
  match (pathBlocklist env).find? (fun b => isSubB b js) with
  | some b => some (.pathLeak b)
  | none =>
    if 3 ≤ env.username.length ∧ hasToken js env.username = true then some .usernameLeak
    else
      match stats.projects.find? (fun p => hasPathFrag p.project) with
      | some p => some (.pathFragment p.project)
      | none => none

/-- The literal `<synthetic>`. -/
def syntheticStr : List Char := "<synthetic>".toList

/-- The two field assignments `sanitize` performs on its deep copy:
`data.projects = []` and the placeholder-model filter. -/
def stripStats (stats : AgentStats) : AgentStats :=
  let d := { stats with projects := ([] : List ProjectBreakdown) }
  { d with models := d.models.filter fun m => !(m.model = unknownStr || m.model = syntheticStr) }

/-- `sanitize(stats, config)` with the Python object state made explicit:
the source takes `data = stats.model_copy(deep=True)` and performs every
mutation on `data`, so the caller's object is untouched. The result pairs
the returned value with the caller-visible state of `stats` after the
call. -/
def sanitizeCallerView (env : SanEnv) (_config : Config) (stats : AgentStats) :
    Except PIIErr (AgentStats × AgentStats) :=
  let data := stripStats stats
  match validateNoPii env data with
  | some e => .error e
  | none => .ok (data, stats)

/-- `sanitize(stats, config)`: the returned value alone. -/
def sanitize (env : SanEnv) (config : Config) (stats : AgentStats) : Except PIIErr AgentStats :=
  (sanitizeCallerView env config stats).map Prod.fst

/-- The JSON structural characters that can flank or separate array
elements in `sJson`. The PII bridge lemmas require the scanned-for blocked
strings to avoid them; POSIX paths and usernames always do. -/
def junctionChars : List Char := ['"', '{', '}', '[', ']', ',']

/-- Well-formedness of the ambient environment: the home path and username
contain no JSON structural characters (true of any real POSIX path or
account name). -/
def EnvOk (env : SanEnv) : Prop :=
  (∀ c ∈ env.home, c ∉ junctionChars) ∧ ∀ c ∈ env.username, c ∉ junctionChars

/-! ## Characterization of the filtering pipeline -/

/-- The per-session predicate applied by `dateRangeFilterOne`. -/
def dateRangeKeeps (dr : List (Option ℤ)) (s : Session) : Bool :=
  match dr with
  | [some a, some b] => !(a ≤ dateOf s.start_time && dateOf s.start_time ≤ b)
  | _ => true

/-- The stage-2 and stage-3 filters combined into one predicate: the claim's
"other privacy filters" beyond the time window. -/
def otherFiltersPass (cfg : Config) (s : Session) : Bool :=
  cfg.privacy.exclude_date_ranges.all (fun dr => dateRangeKeeps dr s) &&
    !matchesAnyPattern s.project cfg.privacy.exclude_projects

lemma mem_windowFilter {now : ℤ} {cfg : Config} {l : List Session} {s : Session} :
    s ∈ windowFilter now cfg l ↔ s ∈ l ∧ cutoffOf now cfg ≤ s.start_time := by
  simp [windowFilter, List.mem_filter]

lemma mem_dateRangeFilterOne {dr : List (Option ℤ)} {l : List Session} {s : Session} :
    s ∈ dateRangeFilterOne dr l ↔ s ∈ l ∧ dateRangeKeeps dr s = true := by
  match dr with
  | [] => simp [dateRangeFilterOne, dateRangeKeeps]
  | [x] => cases x <;> simp [dateRangeFilterOne, dateRangeKeeps]
  | x :: y :: z :: rest => cases x <;> cases y <;> simp [dateRangeFilterOne, dateRangeKeeps]
  | [x, y] =>
    cases x with
    | none => simp [dateRangeFilterOne, dateRangeKeeps]
    | some a =>
      cases y with
      | none => simp [dateRangeFilterOne, dateRangeKeeps]
      | some b => simp [dateRangeFilterOne, dateRangeKeeps, List.mem_filter]

lemma mem_dateRangesFilter {rs : List (List (Option ℤ))} {l : List Session} {s : Session} :
    s ∈ dateRangesFilter rs l ↔ s ∈ l ∧ ∀ dr ∈ rs, dateRangeKeeps dr s = true := by
  induction rs generalizing l with
  | nil => simp [dateRangesFilter]
  | cons dr rs ih =>
    have : dateRangesFilter (dr :: rs) l = dateRangesFilter rs (dateRangeFilterOne dr l) := rfl
    rw [this, ih, mem_dateRangeFilterOne]
    constructor
    · rintro ⟨⟨h1, h2⟩, h3⟩
      exact ⟨h1, by
        intro d hd
        rcases List.mem_cons.mp hd with h | h
        · exact h ▸ h2
        · exact h3 d h⟩
    · rintro ⟨h1, h2⟩
      exact ⟨⟨h1, h2 dr (List.mem_cons_self dr rs)⟩, fun d hd => h2 d (List.mem_cons_of_mem _ hd)⟩

lemma mem_projectFilter {cfg : Config} {l : List Session} {s : Session} :
    s ∈ projectFilter cfg l ↔
      s ∈ l ∧ matchesAnyPattern s.project cfg.privacy.exclude_projects = false := by
  unfold projectFilter
  split
  · rename_i h
    have : cfg.privacy.exclude_projects = [] := by
      cases hp : cfg.privacy.exclude_projects with
      | nil => rfl
      | cons a as => rw [hp] at h; simp [List.isEmpty] at h
    simp [this, matchesAnyPattern]
  · simp [List.mem_filter, Bool.not_eq_true']

lemma mem_filteredSessions {now : ℤ} {cfg : Config} {l : List Session} {s : Session} :
    s ∈ filteredSessions now cfg l ↔
      (s ∈ l ∧ cutoffOf now cfg ≤ s.start_time) ∧ otherFiltersPass cfg s = true := by
  unfold filteredSessions otherFiltersPass
  rw [mem_projectFilter, mem_dateRangesFilter, mem_windowFilter]
  simp only [Bool.and_eq_true, List.all_eq_true, Bool.not_eq_true']
  tauto

/-! ## Claim theorems -/

/-- A 30-minute session starting at 14:00 UTC on the epoch day, used to
exhibit the `hourly` divergence. -/
def c1Sess : Session :=
  { session_id := "s1".toList, agent := "claude_code".toList,
    start_time := 14 * 3600, end_time := some (14 * 3600 + 1800),
    model := "m1".toList, project := "projA".toList, message_count := 10,
    tokens := ⟨1000, 500, 0, 0⟩ }

/-- C1: the claim says `hourly[h]` counts the filtered sessions whose start
hour is `h`; in the source, `aggregate` builds `hour_counts` (line 95) but
the `AgentStats` constructor call (lines 151–164) never passes `hourly=`,
so the field always keeps its default `[0] * 24`. First conjunct: the
returned `hourly` is the default for every input. Second conjunct: at a
concrete input with one surviving session starting at hour 14 (so the claim
demands `hourly[14] = 1`), the code still returns all zeroes. -/
theorem aggregate_hourly_stays_default :
    (∀ (now : ℤ) (cfg : Config) (l : List Session),
      (aggregate now cfg l).hourly = List.replicate 24 0) ∧
    ((aggregate (14 * 3600) ({} : Config) [c1Sess]).total_sessions = 1 ∧
      hourOf c1Sess.start_time = 14 ∧
      (aggregate (14 * 3600) ({} : Config) [c1Sess]).hourly = List.replicate 24 0) := by
  refine ⟨fun now cfg l => ?_, by decide⟩
  unfold aggregate aggregateOfFiltered
  by_cases h : (filteredSessions now cfg l).isEmpty <;> simp [h]

/-- C2: a session strictly before `now − default_days` is excluded by
`aggregate`'s filtering pipeline; a session at or after the cutoff
(boundary included) survives the window stage, its fate depending only on
the remaining privacy filters. -/
theorem aggregate_cutoff_boundary (now : ℤ) (cfg : Config) (l : List Session) (s : Session) :
    (s.start_time < cutoffOf now cfg → s ∉ filteredSessions now cfg l) ∧
    (cutoffOf now cfg ≤ s.start_time →
      (s ∈ filteredSessions now cfg l ↔ s ∈ l ∧ otherFiltersPass cfg s = true)) := by
  constructor
  · intro hlt hmem
    rw [mem_filteredSessions] at hmem
    exact absurd hmem.1.2 (not_le.mpr hlt)
  · intro hge
    rw [mem_filteredSessions]
    exact ⟨fun h => ⟨h.1.1, h.2⟩, fun h => ⟨⟨h.1, hge⟩, h.2⟩⟩

/-- Session exactly at the cutoff instant for `now = 31` days,
`default_days = 30`. -/
def c2SessIn : Session :=
  { session_id := "in".toList, agent := "codex".toList, start_time := 86400,
    model := "m".toList, project := "p".toList }

/-- Session one second before the cutoff. -/
def c2SessOut : Session :=
  { session_id := "out".toList, agent := "codex".toList, start_time := 86399,
    model := "m".toList, project := "p".toList }

theorem aggregate_cutoff_boundary_witness :
    c2SessOut ∉ filteredSessions (31 * 86400) ({} : Config) [c2SessOut] ∧
    (c2SessIn ∈ filteredSessions (31 * 86400) ({} : Config) [c2SessIn] ↔
      c2SessIn ∈ [c2SessIn] ∧ otherFiltersPass ({} : Config) c2SessIn = true) :=
  ⟨(aggregate_cutoff_boundary (31 * 86400) {} [c2SessOut] c2SessOut).1 (by decide),
   (aggregate_cutoff_boundary (31 * 86400) {} [c2SessIn] c2SessIn).2 (by decide)⟩

/-- C4: the three breakdown lists of every `aggregate` result are sorted —
`daily` by date ascending, `models` by session count descending, `projects`
by total minutes descending. -/
theorem aggregate_breakdowns_sorted (now : ℤ) (cfg : Config) (l : List Session) :
    List.Sorted (fun a b : DailyActivity => a.date ≤ b.date) (aggregate now cfg l).daily ∧
    List.Sorted (fun a b : ModelBreakdown => b.session_count ≤ a.session_count)
      (aggregate now cfg l).models ∧
    List.Sorted (fun a b : ProjectBreakdown => b.total_minutes ≤ a.total_minutes)
      (aggregate now cfg l).projects := by
  haveI i1 : IsTotal DailyActivity (fun a b => a.date ≤ b.date) :=
    ⟨fun a b => le_total a.date b.date⟩
  haveI i2 : IsTrans DailyActivity (fun a b => a.date ≤ b.date) :=
    ⟨fun _ _ _ h h' => le_trans h h'⟩
  haveI i3 : IsTotal ModelBreakdown (fun a b => b.session_count ≤ a.session_count) :=
    ⟨fun a b => le_total b.session_count a.session_count⟩
  haveI i4 : IsTrans ModelBreakdown (fun a b => b.session_count ≤ a.session_count) :=
    ⟨fun _ _ _ h h' => le_trans h' h⟩
  haveI i5 : IsTotal ProjectBreakdown (fun a b => b.total_minutes ≤ a.total_minutes) :=
    ⟨fun a b => le_total b.total_minutes a.total_minutes⟩
  haveI i6 : IsTrans ProjectBreakdown (fun a b => b.total_minutes ≤ a.total_minutes) :=
    ⟨fun _ _ _ h h' => le_trans h' h⟩
  unfold aggregate aggregateOfFiltered
  by_cases h : (filteredSessions now cfg l).isEmpty <;>
    simp [h, List.sorted_insertionSort]

/-- First assistant record of the C8 scenario (100/50 tokens). -/
def c8r1 : CCRecord :=
  { sessionId := some "sess-001".toList, recType := some assistantStr,
    timestamp := some (some 0), model := some "claude-opus-4-6".toList,
    usage_input := 100, usage_output := 50, usage_cache_read := 200, usage_cache_write := 30 }

/-- Second assistant record of the C8 scenario (80/40 tokens). -/
def c8r2 : CCRecord :=
  { sessionId := some "sess-001".toList, recType := some assistantStr,
    timestamp := some (some 300), model := some "claude-opus-4-6".toList,
    usage_input := 80, usage_output := 40, usage_cache_read := 150, usage_cache_write := 20 }

/-- The non-assistant record of the C8 scenario. -/
def c8r3 : CCRecord :=
  { sessionId := some "sess-001".toList, recType := some "progress".toList,
    timestamp := some (some 120) }

/-- C8: processing the two assistant records (100/50 and 80/40 input/output
tokens) for `sessionId = "sess-001"` plus one non-assistant record yields
exactly one `Session` with `message_count = 2`, `input_tokens = 180` and
`output_tokens = 90`. -/
theorem claude_code_two_assistant_records :
    processRecords 999 "my-project".toList [c8r1, c8r2, c8r3] =
      [{ session_id := "sess-001".toList, agent := "claude_code".toList,
         start_time := 0, end_time := some 300,
         model := "claude-opus-4-6".toList, project := "my-project".toList,
         message_count := 2, tokens := ⟨180, 90, 350, 50⟩ }] := by
  decide

/-- C10: `sanitize` operates on `stats.model_copy(deep=True)`, so on
success the caller's `stats` object is exactly what it was before the
call. -/
theorem sanitize_preserves_caller (env : SanEnv) (cfg : Config)
    (stats out callerAfter : AgentStats)
    (h : sanitizeCallerView env cfg stats = .ok (out, callerAfter)) :
    callerAfter = stats := by
  have h' : (match validateNoPii env (stripStats stats) with
      | some e => (Except.error e : Except PIIErr (AgentStats × AgentStats))
      | none => Except.ok (stripStats stats, stats)) = Except.ok (out, callerAfter) := h
  cases hv : validateNoPii env (stripStats stats) with
  | some e => rw [hv] at h'; simp at h'
  | none =>
    rw [hv] at h'
    simp only [Except.ok.injEq, Prod.mk.injEq] at h'
    exact h'.2.symm

/-- Small stats value for the C10 witness. -/
def c10Stats : AgentStats :=
  { models := [{ model := "claude-opus-4-6".toList, session_count := 3 }],
    projects := [{ project := "proj".toList, agent := "codex".toList }] }

/-- Environment with no overlap with `c10Stats`, for the C10 witness. -/
def c10Env : SanEnv := { home := "/home/quirrel".toList, username := "quirrel".toList }

set_option maxRecDepth 400000 in
theorem sanitize_preserves_caller_witness : c10Stats = c10Stats :=
  sanitize_preserves_caller c10Env {} c10Stats (stripStats c10Stats) c10Stats (by decide)

/-! ## C5: a glob-excluded session contributes to nothing -/

lemma windowFilter_cons (now : ℤ) (cfg : Config) (s : Session) (l : List Session) :
    windowFilter now cfg (s :: l) = s :: windowFilter now cfg l ∨
      windowFilter now cfg (s :: l) = windowFilter now cfg l := by
  unfold windowFilter
  rw [List.filter_cons]
  split
  · exact Or.inl rfl
  · exact Or.inr rfl

lemma dateRangeFilterOne_cons (dr : List (Option ℤ)) (s : Session) (l : List Session) :
    dateRangeFilterOne dr (s :: l) = s :: dateRangeFilterOne dr l ∨
      dateRangeFilterOne dr (s :: l) = dateRangeFilterOne dr l := by
  match dr with
  | [] => exact Or.inl rfl
  | [x] => cases x <;> exact Or.inl rfl
  | x :: y :: z :: rest => cases x <;> cases y <;> exact Or.inl rfl
  | [x, y] =>
    cases x with
    | none => exact Or.inl rfl
    | some a =>
      cases y with
      | none => exact Or.inl rfl
      | some b =>
        simp only [dateRangeFilterOne, List.filter_cons]
        split
        · exact Or.inl rfl
        · exact Or.inr rfl

lemma dateRangesFilter_cons (rs : List (List (Option ℤ))) (s : Session) (l : List Session) :
    dateRangesFilter rs (s :: l) = s :: dateRangesFilter rs l ∨
      dateRangesFilter rs (s :: l) = dateRangesFilter rs l := by
  induction rs generalizing l with
  | nil => exact Or.inl rfl
  | cons dr rs ih =>
    have h0 : dateRangesFilter (dr :: rs) (s :: l) =
        dateRangesFilter rs (dateRangeFilterOne dr (s :: l)) := rfl
    have h1 : dateRangesFilter (dr :: rs) l = dateRangesFilter rs (dateRangeFilterOne dr l) := rfl
    rcases dateRangeFilterOne_cons dr s l with h | h
    · rw [h0, h, h1]
      exact ih (dateRangeFilterOne dr l)
    · rw [h0, h, h1]
      exact Or.inr rfl

lemma projectFilter_drop {cfg : Config} {s : Session} (l : List Session)
    (h : matchesAnyPattern s.project cfg.privacy.exclude_projects = true) :
    projectFilter cfg (s :: l) = projectFilter cfg l := by
  have hne : cfg.privacy.exclude_projects.isEmpty = false := by
    cases hp : cfg.privacy.exclude_projects with
    | nil => rw [hp] at h; simp [matchesAnyPattern] at h
    | cons a as => simp
  unfold projectFilter
  simp only [hne, Bool.false_eq_true, if_false, List.filter_cons, h, Bool.not_true]

lemma filteredSessions_drop_excluded {now : ℤ} {cfg : Config} {s : Session} (rest : List Session)
    (h : matchesAnyPattern s.project cfg.privacy.exclude_projects = true) :
    filteredSessions now cfg (s :: rest) = filteredSessions now cfg rest := by
  unfold filteredSessions
  rcases windowFilter_cons now cfg s rest with hw | hw
  · rw [hw]
    rcases dateRangesFilter_cons cfg.privacy.exclude_date_ranges s (windowFilter now cfg rest)
      with hd | hd
    · rw [hd, projectFilter_drop _ h]
    · rw [hd]
  · rw [hw]

/-- C5: a session whose project matches one of the configured exclusion
globs contributes to no field of the aggregated result: aggregating with
the session present is identical to aggregating without it, wherever it
appears in the input list. -/
theorem aggregate_excluded_project_contributes_nothing (now : ℤ) (cfg : Config) (s : Session)
    (rest : List Session)
    (h : matchesAnyPattern s.project cfg.privacy.exclude_projects = true) :
    aggregate now cfg (s :: rest) = aggregate now cfg rest := by
  unfold aggregate
  rw [filteredSessions_drop_excluded rest h]

/-- Config excluding `secret-*` projects, for the C5 witness. -/
def c5Cfg : Config := { privacy := { exclude_projects := ["secret-*".toList] } }

/-- Session in an excluded project. -/
def c5Sess : Session :=
  { session_id := "s".toList, agent := "codex".toList, start_time := 0,
    end_time := some 600, model := "m".toList, project := "secret-x".toList,
    message_count := 4, tokens := ⟨10, 20, 30, 40⟩ }

/-- Session in a kept project. -/
def c5Other : Session :=
  { session_id := "t".toList, agent := "codex".toList, start_time := 3600,
    model := "m".toList, project := "open".toList, message_count := 1 }

theorem aggregate_excluded_project_contributes_nothing_witness :
    aggregate 3600 c5Cfg [c5Sess, c5Other] = aggregate 3600 c5Cfg [c5Other] :=
  aggregate_excluded_project_contributes_nothing 3600 c5Cfg c5Sess [c5Other] (by decide)

/-! ## C3: breakdown token sums equal the grand total -/

instance : Add TokenUsage := ⟨addTokens⟩

instance : Zero TokenUsage := ⟨tuZero⟩

lemma tuZero_eq_zero : tuZero = (0 : TokenUsage) := rfl

instance : AddCommMonoid TokenUsage where
  add_assoc a b c := by
    show addTokens (addTokens a b) c = addTokens a (addTokens b c)
    simp [addTokens, Int.add_assoc]
  zero_add a := by
    show addTokens tuZero a = a
    simp [addTokens, tuZero]
  add_zero a := by
    show addTokens a tuZero = a
    simp [addTokens, tuZero]
  add_comm a b := by
    show addTokens a b = addTokens b a
    simp [addTokens, Int.add_comm]
  nsmul := nsmulRec

/-- Total tokens of a session list. -/
def sessTokens (l : List Session) : TokenUsage := (l.map Session.tokens).sum

/-- Token sum over the per-date accumulator map. -/
def dailyTokens (st : AggState) : TokenUsage := (st.daily.map fun p => p.2.tokens).sum

/-- Token sum over the per-model accumulator map. -/
def modelsTokens (st : AggState) : TokenUsage := (st.models.map fun p => p.2.tokens).sum

/-- Token sum over the per-project accumulator map. -/
def projectsTokens (st : AggState) : TokenUsage := (st.projects.map fun p => p.2.tokens).sum

lemma sum_updateAssoc {κ α : Type} [DecidableEq κ] (tok : α → TokenUsage) (m : List (κ × α))
    (k : κ) (d : α) (f : α → α) (t : TokenUsage) (hd : tok d = 0)
    (hf : ∀ v, tok (f v) = tok v + t) :
    ((updateAssoc m k d f).map fun p => tok p.2).sum = ((m.map fun p => tok p.2).sum) + t := by
  induction m with
  | nil => simp [updateAssoc, hf, hd]
  | cons hd0 tl ih =>
    obtain ⟨k', v⟩ := hd0
    unfold updateAssoc
    by_cases hk : k' = k
    · simp only [hk, if_true, List.map_cons, List.sum_cons, hf]
      abel
    · simp only [hk, if_false, List.map_cons, List.sum_cons, ih]
      abel

lemma stepSession_token_sums (st : AggState) (s : Session) :
    dailyTokens (stepSession st s) = dailyTokens st + s.tokens ∧
    modelsTokens (stepSession st s) = modelsTokens st + s.tokens ∧
    projectsTokens (stepSession st s) = projectsTokens st + s.tokens ∧
    (stepSession st s).total_tokens = st.total_tokens + s.tokens := by
  refine ⟨?_, ?_, ?_, rfl⟩
  · exact sum_updateAssoc (fun a : DailyAcc => a.tokens) st.daily _ _ _ s.tokens rfl fun v => rfl
  · exact sum_updateAssoc (fun a : ModelAcc => a.tokens) st.models _ _ _ s.tokens rfl fun v => rfl
  · exact sum_updateAssoc (fun a : ProjectAcc => a.tokens) st.projects _ _ _ s.tokens rfl
      fun v => rfl

lemma foldl_stepSession_token_sums (l : List Session) (st : AggState) :
    dailyTokens (l.foldl stepSession st) = dailyTokens st + sessTokens l ∧
    modelsTokens (l.foldl stepSession st) = modelsTokens st + sessTokens l ∧
    projectsTokens (l.foldl stepSession st) = projectsTokens st + sessTokens l ∧
    (l.foldl stepSession st).total_tokens = st.total_tokens + sessTokens l := by
  induction l generalizing st with
  | nil => refine ⟨?_, ?_, ?_, ?_⟩ <;> simp [sessTokens]
  | cons s l ih =>
    have hstep := stepSession_token_sums st s
    have hl := ih (stepSession st s)
    have hsess : sessTokens (s :: l) = s.tokens + sessTokens l := by simp [sessTokens]
    refine ⟨?_, ?_, ?_, ?_⟩
    · rw [List.foldl_cons, hl.1, hstep.1, hsess]; abel
    · rw [List.foldl_cons, hl.2.1, hstep.2.1, hsess]; abel
    · rw [List.foldl_cons, hl.2.2.1, hstep.2.2.1, hsess]; abel
    · rw [List.foldl_cons, hl.2.2.2, hstep.2.2.2, hsess]; abel

/-- C3: in every `aggregate` result, the field-wise token sums of the model
breakdown, the daily breakdown and the project breakdown each equal
`total_tokens` (each filtered session lands in exactly one bucket of each
dimension and in the grand total). -/
theorem aggregate_token_sums (now : ℤ) (cfg : Config) (l : List Session) :
    ((aggregate now cfg l).models.map ModelBreakdown.tokens).sum =
      (aggregate now cfg l).total_tokens ∧
    ((aggregate now cfg l).daily.map DailyActivity.tokens).sum =
      (aggregate now cfg l).total_tokens ∧
    ((aggregate now cfg l).projects.map ProjectBreakdown.tokens).sum =
      (aggregate now cfg l).total_tokens := by
  unfold aggregate aggregateOfFiltered
  by_cases h : (filteredSessions now cfg l).isEmpty
  · simp [h, ← tuZero_eq_zero]
  · have hfold := foldl_stepSession_token_sums (filteredSessions now cfg l) {}
    simp only [h, Bool.false_eq_true, if_false]
    refine ⟨?_, ?_, ?_⟩
    · have hperm :=
        (List.perm_insertionSort (fun a b : ModelBreakdown => b.session_count ≤ a.session_count)
          (((filteredSessions now cfg l).foldl stepSession {}).models.map fun p =>
            { model := p.1
              session_count := p.2.session_count
              message_count := p.2.message_count
              total_minutes := deciMinutesOfSeconds p.2.total_seconds
              tokens := p.2.tokens }))
      have hs := (hperm.map ModelBreakdown.tokens).sum_eq
      rw [hs, List.map_map]
      have : (ModelBreakdown.tokens ∘ fun p : (List Char) × ModelAcc =>
          ({ model := p.1
             session_count := p.2.session_count
             message_count := p.2.message_count
             total_minutes := deciMinutesOfSeconds p.2.total_seconds
             tokens := p.2.tokens } : ModelBreakdown)) = fun p => p.2.tokens := rfl
      rw [this]
      have h1 := hfold.2.1
      have h2 := hfold.2.2.2
      simp only [modelsTokens] at h1
      rw [h1, h2]
      rfl
    · have hperm :=
        (List.perm_insertionSort (fun a b : DailyActivity => a.date ≤ b.date)
          (((filteredSessions now cfg l).foldl stepSession {}).daily.map fun p =>
            { date := p.1
              session_count := p.2.session_count
              message_count := p.2.message_count
              total_minutes := deciMinutesOfSeconds p.2.total_seconds
              tokens := p.2.tokens }))
      have hs := (hperm.map DailyActivity.tokens).sum_eq
      rw [hs, List.map_map]
      have : (DailyActivity.tokens ∘ fun p : ℤ × DailyAcc =>
          ({ date := p.1
             session_count := p.2.session_count
             message_count := p.2.message_count
             total_minutes := deciMinutesOfSeconds p.2.total_seconds
             tokens := p.2.tokens } : DailyActivity)) = fun p => p.2.tokens := rfl
      rw [this]
      have h1 := hfold.1
      have h2 := hfold.2.2.2
      simp only [dailyTokens] at h1
      rw [h1, h2]
      rfl
    · have hperm :=
        (List.perm_insertionSort (fun a b : ProjectBreakdown => b.total_minutes ≤ a.total_minutes)
          (((filteredSessions now cfg l).foldl stepSession {}).projects.map fun p =>
            { project := p.1.1
              agent := p.1.2
              session_count := p.2.session_count
              total_minutes := deciMinutesOfSeconds p.2.total_seconds
              tokens := p.2.tokens }))
      have hs := (hperm.map ProjectBreakdown.tokens).sum_eq
      rw [hs, List.map_map]
      have : (ProjectBreakdown.tokens ∘ fun p : ((List Char) × (List Char)) × ProjectAcc =>
          ({ project := p.1.1
             agent := p.1.2
             session_count := p.2.session_count
             total_minutes := deciMinutesOfSeconds p.2.total_seconds
             tokens := p.2.tokens } : ProjectBreakdown)) = fun p => p.2.tokens := rfl
      rw [this]
      have h1 := hfold.2.2.1
      have h2 := hfold.2.2.2
      simp only [projectsTokens] at h1
      rw [h1, h2]
      rfl

/-! ## C9: session time span in the claude_code collector -/

/-- The timestamps `_process_record` actually folds into an accumulator:
those of assistant-type records with a parseable timestamp (non-assistant
records return before `acc.timestamps.append`). -/
def countedTs (rs : List CCRecord) : List ℤ :=
  rs.filterMap fun r =>
    if r.recType = some assistantStr then
      match r.timestamp with
      | some (some t) => some t
      | _ => none
    else none

lemma processRecord_skip {r : CCRecord} {slug sid : List Char} (hsid : sid ≠ [])
    (hr : r.sessionId = some sid) (m : List (List Char × SessionAcc))
    (hskip : r.recType ≠ some assistantStr ∨ r.timestamp = none ∨ r.timestamp = some none) :
    processRecord r slug m = m := by
  unfold processRecord
  rw [hr]
  rcases hskip with h | h | h
  · simp [hsid, h]
  · by_cases ht : r.recType = some assistantStr <;> simp [hsid, ht, h]
  · by_cases ht : r.recType = some assistantStr <;> simp [hsid, ht, h]

lemma processRecord_counted {r : CCRecord} {slug sid : List Char} {t : ℤ} (hsid : sid ≠ [])
    (hr : r.sessionId = some sid) (ht : r.recType = some assistantStr)
    (hts : r.timestamp = some (some t)) (acc : SessionAcc) :
    processRecord r slug [(sid, acc)] =
      [(sid, { acc with
        message_count := acc.message_count + 1
        timestamps := acc.timestamps ++ [t]
        tokens := addTokens acc.tokens
          ⟨r.usage_input, r.usage_output, r.usage_cache_read, r.usage_cache_write⟩
        models := if r.model.getD unknownStr ≠ unknownStr then
            updateAssoc acc.models (r.model.getD unknownStr) 0 (· + 1)
          else acc.models })] := by
  unfold processRecord
  rw [hr]
  simp [hsid, ht, hts, updateAssoc]

lemma processRecord_counted_nil {r : CCRecord} {slug sid : List Char} {t : ℤ} (hsid : sid ≠ [])
    (hr : r.sessionId = some sid) (ht : r.recType = some assistantStr)
    (hts : r.timestamp = some (some t)) :
    processRecord r slug [] =
      [(sid,
        { session_id := sid
          project := slug
          message_count := 1
          timestamps := [t]
          tokens := addTokens tuZero
            ⟨r.usage_input, r.usage_output, r.usage_cache_read, r.usage_cache_write⟩
          models := if r.model.getD unknownStr ≠ unknownStr then
              updateAssoc [] (r.model.getD unknownStr) 0 (· + 1)
            else [] })] := by
  unfold processRecord
  rw [hr]
  simp [hsid, ht, hts, updateAssoc]

lemma fold_from_single {slug sid : List Char} (hsid : sid ≠ []) (rs : List CCRecord)
    (hall : ∀ r ∈ rs, r.sessionId = some sid) (acc : SessionAcc) :
    ∃ acc', rs.foldl (fun m r => processRecord r slug m) [(sid, acc)] = [(sid, acc')] ∧
      acc'.timestamps = acc.timestamps ++ countedTs rs ∧
      acc'.session_id = acc.session_id ∧ acc'.project = acc.project := by
  induction rs generalizing acc with
  | nil => exact ⟨acc, rfl, by simp [countedTs], rfl, rfl⟩
  | cons r rs ih =>
    have hr : r.sessionId = some sid := hall r (List.mem_cons_self r rs)
    have hall' : ∀ x ∈ rs, x.sessionId = some sid :=
      fun x hx => hall x (List.mem_cons_of_mem _ hx)
    by_cases ht : r.recType = some assistantStr
    · cases hts : r.timestamp with
      | none =>
        rw [List.foldl_cons, processRecord_skip hsid hr _ (Or.inr (Or.inl hts))]
        have hc : countedTs (r :: rs) = countedTs rs := by
          simp [countedTs, List.filterMap_cons, ht, hts]
        rw [hc]
        exact ih hall' acc
      | some x =>
        cases x with
        | none =>
          rw [List.foldl_cons, processRecord_skip hsid hr _ (Or.inr (Or.inr hts))]
          have hc : countedTs (r :: rs) = countedTs rs := by
            simp [countedTs, List.filterMap_cons, ht, hts]
          rw [hc]
          exact ih hall' acc
        | some t =>
          rw [List.foldl_cons, processRecord_counted hsid hr ht hts acc]
          obtain ⟨acc', hfold, htsacc, hid, hproj⟩ := ih hall' _
          refine ⟨acc', hfold, ?_, hid, hproj⟩
          rw [htsacc]
          have hc : countedTs (r :: rs) = t :: countedTs rs := by
            simp [countedTs, List.filterMap_cons, ht, hts]
          rw [hc]
          simp
    · rw [List.foldl_cons, processRecord_skip hsid hr _ (Or.inl ht)]
      have hc : countedTs (r :: rs) = countedTs rs := by
        simp [countedTs, List.filterMap_cons, ht]
      rw [hc]
      exact ih hall' acc

lemma fold_from_nil {slug sid : List Char} (hsid : sid ≠ []) (rs : List CCRecord) :
    (∀ r ∈ rs, r.sessionId = some sid) →
    (countedTs rs = [] ∧ rs.foldl (fun m r => processRecord r slug m) [] = []) ∨
    (∃ acc', rs.foldl (fun m r => processRecord r slug m) [] = [(sid, acc')] ∧
      acc'.timestamps = countedTs rs ∧ acc'.session_id = sid ∧ acc'.project = slug) := by
  induction rs with
  | nil => intro _; exact Or.inl ⟨rfl, rfl⟩
  | cons r rs ih =>
    intro hall
    have hr : r.sessionId = some sid := hall r (List.mem_cons_self r rs)
    have hall' : ∀ x ∈ rs, x.sessionId = some sid :=
      fun x hx => hall x (List.mem_cons_of_mem _ hx)
    by_cases ht : r.recType = some assistantStr
    · cases hts : r.timestamp with
      | none =>
        rw [List.foldl_cons, processRecord_skip hsid hr _ (Or.inr (Or.inl hts))]
        have hc : countedTs (r :: rs) = countedTs rs := by
          simp [countedTs, List.filterMap_cons, ht, hts]
        rw [hc]
        exact ih hall'
      | some x =>
        cases x with
        | none =>
          rw [List.foldl_cons, processRecord_skip hsid hr _ (Or.inr (Or.inr hts))]
          have hc : countedTs (r :: rs) = countedTs rs := by
            simp [countedTs, List.filterMap_cons, ht, hts]
          rw [hc]
          exact ih hall'
        | some t =>
          rw [List.foldl_cons, processRecord_counted_nil hsid hr ht hts]
          obtain ⟨acc', hfold, htsacc, hid, hproj⟩ := fold_from_single hsid rs hall' _
          refine Or.inr ⟨acc', hfold, ?_, hid, hproj⟩
          rw [htsacc]
          have hc : countedTs (r :: rs) = t :: countedTs rs := by
            simp [countedTs, List.filterMap_cons, ht, hts]
          rw [hc]
          simp
    · rw [List.foldl_cons, processRecord_skip hsid hr _ (Or.inl ht)]
      have hc : countedTs (r :: rs) = countedTs rs := by
        simp [countedTs, List.filterMap_cons, ht]
      rw [hc]
      exact ih hall'

lemma toSession_start_end (now : ℤ) (acc : SessionAcc) (t : ℤ) (ts : List ℤ)
    (h : acc.timestamps = t :: ts) :
    (toSession now acc).start_time = ts.foldl min t ∧
      (toSession now acc).end_time = some (ts.foldl max t) := by
  unfold toSession
  rw [h]
  exact ⟨rfl, rfl⟩

/-- Assistant record with timestamp 6000 for the C9 counterexample. -/
def c9a : CCRecord :=
  { sessionId := some "s9".toList, recType := some assistantStr, timestamp := some (some 6000) }

/-- Non-assistant record (type `progress`) with the earlier timestamp 0. -/
def c9b : CCRecord :=
  { sessionId := some "s9".toList, recType := some "progress".toList,
    timestamp := some (some 0) }

/-- C9 counterexample: the claim says the session's `start_time` is the
minimum over the timestamps of all seen records with the sessionId,
including non-assistant ones. Here the non-assistant record carries the
strictly smaller timestamp 0, yet the produced session starts at 6000: the
type check at line 58 of `claude_code.py` returns before the timestamp is
recorded, so non-assistant records never extend the span. -/
theorem claude_code_time_span_counterexample :
    (processRecords 0 "p".toList [c9a, c9b]).map Session.start_time = [6000] ∧
    min (6000 : ℤ) 0 = 0 ∧
    (processRecords 0 "p".toList [c9a, c9b]).map Session.start_time ≠ [min (6000 : ℤ) 0] := by
  decide

/-- C9 amended: for records sharing one truthy sessionId, the produced
session's `start_time` and `end_time` are the minimum and maximum of the
timestamps of the assistant-type records with parseable timestamps (and of
those only). -/
theorem claude_code_session_time_span (now : ℤ) (slug sid : List Char) (rs : List CCRecord)
    (hsid : sid ≠ []) (hall : ∀ r ∈ rs, r.sessionId = some sid)
    (hne : countedTs rs ≠ []) :
    ∃ s, processRecords now slug rs = [s] ∧
      (countedTs rs).min? = some s.start_time ∧ (countedTs rs).max? = s.end_time := by
  rcases fold_from_nil hsid rs hall with ⟨hcount, _⟩ | ⟨acc', hfold, hts, _, _⟩
  · exact absurd hcount hne
  · refine ⟨toSession now acc', ?_, ?_, ?_⟩
    · unfold processRecords
      rw [hfold]
      rfl
    · cases hc : countedTs rs with
      | nil => exact absurd hc hne
      | cons t ts =>
        obtain ⟨h1, _⟩ := toSession_start_end now acc' t ts (by rw [hts, hc])
        rw [h1]
        rfl
    · cases hc : countedTs rs with
      | nil => exact absurd hc hne
      | cons t ts =>
        obtain ⟨_, h2⟩ := toSession_start_end now acc' t ts (by rw [hts, hc])
        rw [h2]
        rfl

theorem claude_code_session_time_span_witness :
    ∃ s, processRecords 0 "p".toList [c9a, c9b] = [s] ∧
      (countedTs [c9a, c9b]).min? = some s.start_time ∧
      (countedTs [c9a, c9b]).max? = s.end_time :=
  claude_code_session_time_span 0 "p".toList "s9".toList [c9a, c9b]
    (by decide) (by decide) (by decide)

/-! ## String occurrence machinery for the sanitizer claims

The sanitizer compares the serialized stats against blocked strings, either
as a plain substring (`in`) or as a word-boundary token (`re.search`). The
lemmas below relate the executable scanners to declarative occurrence
predicates, and show that occurrences of strings free of JSON structural
characters transfer between the serialized forms of a stats value and its
stripped copy. -/

lemma isPrefixB_iff (u s : List Char) : isPrefixB u s = true ↔ u <+: s := by
  induction u generalizing s with
  | nil => simp [isPrefixB]
  | cons a as ih =>
    cases s with
    | nil => simp [isPrefixB]
    | cons b bs => simp [isPrefixB, ih, List.cons_prefix_cons, And.comm]

lemma isSubB_iff (u s : List Char) : isSubB u s = true ↔ u <:+: s := by
  induction s with
  | nil => simp [isSubB, List.isEmpty_iff, List.infix_nil]
  | cons c cs ih => simp [isSubB, ih, isPrefixB_iff, List.infix_cons_iff]

lemma mem_of_getLast?_eq {l : List Char} {c : Char} (h : l.getLast? = some c) : c ∈ l := by
  obtain ⟨hne, heq⟩ := List.mem_getLast?_eq_getLast (show c ∈ l.getLast? by simp [h])
  exact heq ▸ List.getLast_mem hne

lemma suffix_concat_last_mem {s x : List Char} {c : Char} (h : s <:+ x ++ [c]) (hne : s ≠ []) :
    c ∈ s := by
  obtain ⟨p, hp⟩ := h
  have h1 : s.getLast? = some c := by
    have h2 := congrArg List.getLast? hp
    rw [List.getLast?_append, List.getLast?_concat] at h2
    cases hl : s.getLast? with
    | none => exact absurd (List.getLast?_eq_none_iff.mp hl) hne
    | some d =>
      rw [hl] at h2
      simp [Option.or] at h2
      exact h2 ▸ rfl
  exact mem_of_getLast?_eq h1

lemma prefix_cons_head_mem {t y : List Char} {c : Char} (h : t <+: c :: y) (hne : t ≠ []) :
    c ∈ t := by
  cases t with
  | nil => exact absurd rfl hne
  | cons a t' =>
    obtain ⟨r, hr⟩ := h
    rw [List.cons_append] at hr
    have : a = c := (List.cons.inj hr).1
    rw [this]
    exact List.mem_cons_self c t'

lemma infix_append_split {bad x y : List Char} (h : bad <:+: x ++ y) :
    bad <:+: x ∨ bad <:+: y ∨
      ∃ s t, bad = s ++ t ∧ s ≠ [] ∧ t ≠ [] ∧ s <:+ x ∧ t <+: y := by
  obtain ⟨a, b, hab⟩ := h
  have hab' : a ++ (bad ++ b) = x ++ y := by rw [← hab]; simp [List.append_assoc]
  rcases List.append_eq_append_iff.mp hab' with ⟨w, hw1, hw2⟩ | ⟨w, hw1, hw2⟩
  · -- x = a ++ w, bad ++ b = w ++ y
    rcases List.append_eq_append_iff.mp hw2 with ⟨v, hv1, hv2⟩ | ⟨v, hv1, hv2⟩
    · -- w = bad ++ v, b = v ++ y
      exact Or.inl ⟨a, v, by rw [hw1, hv1]; simp [List.append_assoc]⟩
    · -- bad = w ++ v, y = v ++ b
      by_cases hwn : w = []
      · subst hwn
        simp only [List.nil_append] at hv1
        exact Or.inr (Or.inl ⟨[], b, by rw [hv2, ← hv1]; simp⟩)
      · by_cases hvn : v = []
        · subst hvn
          rw [List.append_nil] at hv1
          exact Or.inl ⟨a, [], by rw [hw1, hv1]; simp⟩
        · exact Or.inr (Or.inr ⟨w, v, hv1, hwn, hvn, ⟨a, hw1.symm⟩, ⟨b, hv2.symm⟩⟩)
  · -- a = x ++ w, y = w ++ (bad ++ b)
    exact Or.inr (Or.inl ⟨w, b, by rw [hw2]; simp [List.append_assoc]⟩)

lemma infix_append_left_junction {bad x y : List Char} {c : Char} (hc : c ∉ bad)
    (h : bad <:+: x ++ (c :: y)) : bad <:+: x ∨ bad <:+: c :: y := by
  rcases infix_append_split h with h1 | h1 | ⟨s, t, hbad, _, htn, _, hpre⟩
  · exact Or.inl h1
  · exact Or.inr h1
  · exact absurd (hbad ▸ List.mem_append_right s (prefix_cons_head_mem hpre htn)) hc

lemma infix_cons_junction {bad y : List Char} {c : Char} (hc : c ∉ bad) (hb : bad ≠ [])
    (h : bad <:+: c :: y) : bad <:+: y := by
  rcases List.infix_cons_iff.mp h with h1 | h1
  · exact absurd (prefix_cons_head_mem h1 hb) hc
  · exact h1

lemma infix_appendR (x y : List Char) : y <:+: x ++ y := ⟨x, [], by simp⟩

lemma infix_appendL (x y : List Char) : x <:+: x ++ y := ⟨[], y, by simp⟩

lemma infix_joinComma_elim {bad : List Char} (hb : bad ≠ []) (hc : ',' ∉ bad)
    (es : List (List Char)) (h : bad <:+: joinComma es) : ∃ e ∈ es, bad <:+: e := by
  induction es with
  | nil =>
    rw [show joinComma [] = [] from rfl, List.infix_nil] at h
    exact absurd h hb
  | cons x es ih =>
    cases es with
    | nil => exact ⟨x, List.mem_cons_self x [], h⟩
    | cons y ys =>
      rw [show joinComma (x :: y :: ys) = x ++ ',' :: joinComma (y :: ys) from rfl] at h
      rcases infix_append_left_junction hc h with h1 | h1
      · exact ⟨x, List.mem_cons_self x _, h1⟩
      · obtain ⟨e, he, hh⟩ := ih (infix_cons_junction hc hb h1)
        exact ⟨e, List.mem_cons_of_mem _ he, hh⟩

lemma entry_infix_joinComma {e : List Char} (es : List (List Char)) (he : e ∈ es) :
    e <:+: joinComma es := by
  induction es with
  | nil => cases he
  | cons x es ih =>
    rcases List.mem_cons.mp he with rfl | he'
    · cases es with
      | nil => exact List.infix_refl e
      | cons y ys =>
        rw [show joinComma (e :: y :: ys) = e ++ ',' :: joinComma (y :: ys) from rfl]
        exact infix_appendL e _
    · cases es with
      | nil => cases he'
      | cons y ys =>
        rw [show joinComma (x :: y :: ys) = x ++ ',' :: joinComma (y :: ys) from rfl]
        refine (ih he').trans ?_
        refine List.IsInfix.trans ?_ (infix_appendR x _)
        exact ⟨[','], [], by simp⟩

/-! ### Word-boundary token occurrences -/

/-- Left word boundary: the text before the occurrence is empty or ends in
a non-letter (`(?<![a-zA-Z])`). -/
def leftOk (a : List Char) : Prop := ∀ c, a.getLast? = some c → c.isAlpha = false

/-- Right word boundary: the text after the occurrence is empty or starts
with a non-letter (`(?![a-zA-Z])`). -/
def rightOk (b : List Char) : Prop := ∀ c, b.head? = some c → c.isAlpha = false

/-- A word-boundary occurrence of `u` somewhere in `s`: the declarative
meaning of `re.search` with the sanitizer's username pattern. -/
def TokenOccurs (s u : List Char) : Prop :=
  ∃ a b, s = a ++ u ++ b ∧ leftOk a ∧ rightOk b

lemma leftOk_nil : leftOk [] := by intro c hc; simp at hc

lemma rightOk_nil : rightOk [] := by intro c hc; simp at hc

lemma getLast?_cons_of_ne_nil {a : Char} {l : List Char} (h : l ≠ []) :
    (a :: l).getLast? = l.getLast? := by
  cases l with
  | nil => exact absurd rfl h
  | cons b bs => exact List.getLast?_cons_cons

lemma rightOkB_iff (b : List Char) : rightOkB b = true ↔ rightOk b := by
  cases b with
  | nil => simp [rightOkB, rightOk_nil]
  | cons c cs => simp [rightOkB, rightOk, Bool.not_eq_true']

lemma tokenAtB_iff (u s : List Char) : tokenAtB u s = true ↔ ∃ b, s = u ++ b ∧ rightOk b := by
  unfold tokenAtB
  rw [Bool.and_eq_true, isPrefixB_iff, rightOkB_iff]
  constructor
  · rintro ⟨⟨b, hb⟩, hr⟩
    refine ⟨b, hb.symm, ?_⟩
    have hd : s.drop u.length = b := by rw [← hb]; exact List.drop_left u b
    rwa [hd] at hr
  · rintro ⟨b, rfl, hr⟩
    exact ⟨⟨b, rfl⟩, by rw [List.drop_left u b]; exact hr⟩

lemma hasTokenFrom_iff (u : List Char) (hu : u ≠ []) (prevOk : Bool) (s : List Char) :
    hasTokenFrom u prevOk s = true ↔
      ∃ a b, s = a ++ u ++ b ∧ ((a = [] ∧ prevOk = true) ∨ (a ≠ [] ∧ leftOk a)) ∧ rightOk b := by
  induction s generalizing prevOk with
  | nil =>
    simp only [hasTokenFrom, Bool.false_eq_true, false_iff]
    rintro ⟨a, b, hab, _, _⟩
    have hlen := congrArg List.length hab
    simp [List.length_append] at hlen
    have := List.length_pos.mpr hu
    omega
  | cons c rest ih =>
    rw [show hasTokenFrom u prevOk (c :: rest) =
      ((prevOk && tokenAtB u (c :: rest)) || hasTokenFrom u (!c.isAlpha) rest) from rfl]
    rw [Bool.or_eq_true, Bool.and_eq_true, tokenAtB_iff, ih (!c.isAlpha)]
    constructor
    · rintro (⟨hprev, b, hb, hr⟩ | ⟨a, b, hab, hcond, hr⟩)
      · exact ⟨[], b, by simpa using hb, Or.inl ⟨rfl, hprev⟩, hr⟩
      · refine ⟨c :: a, b, by simp [hab], Or.inr ⟨by simp, ?_⟩, hr⟩
        rcases hcond with ⟨rfl, hok⟩ | ⟨hne, hok⟩
        · intro d hd
          simp only [List.getLast?_singleton, Option.some.injEq] at hd
          rw [← hd]
          simpa using hok
        · intro d hd
          exact hok d (by rwa [getLast?_cons_of_ne_nil hne] at hd)
    · rintro ⟨a, b, hab, hcond, hr⟩
      cases a with
      | nil =>
        rcases hcond with ⟨_, hprev⟩ | ⟨hne, _⟩
        · exact Or.inl ⟨hprev, b, by simpa using hab, hr⟩
        · exact absurd rfl hne
      | cons a0 as =>
        rcases hcond with ⟨heq, _⟩ | ⟨_, hok⟩
        · exact absurd heq (by simp)
        · right
          have hab' : c :: rest = a0 :: (as ++ u ++ b) := by
            rw [hab]; simp [List.append_assoc]
          have ha0 : a0 = c := ((List.cons.inj hab').1).symm
          have hrest : rest = as ++ u ++ b := (List.cons.inj hab').2
          refine ⟨as, b, hrest, ?_, hr⟩
          by_cases has : as = []
          · subst has
            refine Or.inl ⟨rfl, ?_⟩
            have hc0 : c.isAlpha = false := hok c (by rw [← ha0]; rfl)
            simp [hc0]
          · refine Or.inr ⟨has, fun d hd => ?_⟩
            exact hok d (by rwa [getLast?_cons_of_ne_nil has])

lemma hasToken_iff {s u : List Char} (hu : u ≠ []) :
    hasToken s u = true ↔ TokenOccurs s u := by
  unfold hasToken TokenOccurs
  rw [hasTokenFrom_iff u hu true s]
  constructor
  · rintro ⟨a, b, hab, hcond, hr⟩
    refine ⟨a, b, hab, ?_, hr⟩
    rcases hcond with ⟨rfl, _⟩ | ⟨_, hl⟩
    · exact leftOk_nil
    · exact hl
  · rintro ⟨a, b, hab, hl, hr⟩
    refine ⟨a, b, hab, ?_, hr⟩
    by_cases ha : a = []
    · exact Or.inl ⟨ha, rfl⟩
    · exact Or.inr ⟨ha, hl⟩

lemma tokenOccurs_nil {u : List Char} (hu : u ≠ []) : ¬ TokenOccurs [] u := by
  rintro ⟨a, b, hab, _, _⟩
  have hlen := congrArg List.length hab
  simp [List.length_append] at hlen
  have := List.length_pos.mpr hu
  omega

lemma tokenOccurs_infixOf {s u : List Char} (h : TokenOccurs s u) : u <:+: s := by
  obtain ⟨a, b, hab, _, _⟩ := h
  exact ⟨a, b, by rw [hab]⟩

lemma tokenOccurs_append_elim {u x y : List Char} {c : Char} (hc : c ∉ u)
    (h : TokenOccurs (x ++ (c :: y)) u) : TokenOccurs x u ∨ TokenOccurs (c :: y) u := by
  obtain ⟨a, b, hab, hl, hr⟩ := h
  have hab' : a ++ (u ++ b) = x ++ (c :: y) := by
    rw [← List.append_assoc]
    exact hab.symm
  rcases List.append_eq_append_iff.mp hab' with ⟨w, hw1, hw2⟩ | ⟨w, hw1, hw2⟩
  · -- x = a ++ w, u ++ b = w ++ (c :: y)
    rcases List.append_eq_append_iff.mp hw2 with ⟨v, hv1, hv2⟩ | ⟨v, hv1, hv2⟩
    · -- w = u ++ v, b = v ++ (c :: y)
      left
      refine ⟨a, v, by rw [hw1, hv1]; simp [List.append_assoc], hl, ?_⟩
      intro d hd
      apply hr
      rw [hv2]
      cases v with
      | nil => simp at hd
      | cons v0 vs => simpa using hd
    · -- u = w ++ v, c :: y = v ++ b
      cases v with
      | nil =>
        left
        rw [List.append_nil] at hv1
        exact ⟨a, [], by rw [hw1, hv1]; simp, hl, rightOk_nil⟩
      | cons v0 vs =>
        exfalso
        have hv0 : v0 = c := by
          have := (List.cons.inj (by simpa using hv2.symm)).1
          exact this
        exact hc (hv1 ▸ List.mem_append_right w (hv0 ▸ List.mem_cons_self v0 vs))
  · -- a = x ++ w, c :: y = w ++ (u ++ b)
    right
    refine ⟨w, b, by rw [hw2]; simp [List.append_assoc], ?_, hr⟩
    intro d hd
    apply hl
    cases hwn : w.getLast? with
    | none =>
      exact absurd (hwn ▸ hd) (by rw [List.getLast?_eq_none_iff.mp hwn] at hd; simp_all)
    | some e =>
      rw [hw1, List.getLast?_append, hwn]
      rw [hwn] at hd
      simpa using hd

lemma tokenOccurs_cons_elim {u y : List Char} {c : Char} (hc : c ∉ u) (hu : u ≠ [])
    (h : TokenOccurs (c :: y) u) : TokenOccurs y u := by
  obtain ⟨a, b, hab, hl, hr⟩ := h
  cases a with
  | nil =>
    exfalso
    cases u with
    | nil => exact hu rfl
    | cons u0 us =>
      have : u0 = c := by
        have := (List.cons.inj (by simpa using hab)).1
        exact this.symm
      exact hc (this ▸ List.mem_cons_self u0 us)
  | cons a0 as =>
    have hab' : c :: y = a0 :: (as ++ u ++ b) := by rw [hab]; simp [List.append_assoc]
    refine ⟨as, b, (List.cons.inj hab').2, ?_, hr⟩
    intro d hd
    apply hl
    by_cases has : as = []
    · rw [has] at hd; simp at hd
    · rwa [getLast?_cons_of_ne_nil has]

lemma tokenOccurs_cons_intro {u y : List Char} {c : Char} (hca : c.isAlpha = false)
    (h : TokenOccurs y u) : TokenOccurs (c :: y) u := by
  obtain ⟨a, b, hab, hl, hr⟩ := h
  refine ⟨c :: a, b, by rw [hab]; simp, ?_, hr⟩
  intro d hd
  by_cases ha : a = []
  · rw [ha] at hd
    simp only [List.getLast?_singleton, Option.some.injEq] at hd
    rw [← hd]
    exact hca
  · exact hl d (by rwa [getLast?_cons_of_ne_nil ha] at hd)

lemma tokenOccurs_append_right {u x y : List Char}
    (hy : ∀ c, y.head? = some c → c.isAlpha = false)
    (h : TokenOccurs x u) : TokenOccurs (x ++ y) u := by
  obtain ⟨a, b, hab, hl, hr⟩ := h
  refine ⟨a, b ++ y, by rw [hab]; simp [List.append_assoc], hl, ?_⟩
  intro d hd
  cases b with
  | nil => exact hy d (by simpa using hd)
  | cons b0 bs => exact hr d (by simpa using hd)

lemma tokenOccurs_append_left {u x y : List Char}
    (hx : ∀ c, x.getLast? = some c → c.isAlpha = false)
    (h : TokenOccurs y u) : TokenOccurs (x ++ y) u := by
  obtain ⟨a, b, hab, hl, hr⟩ := h
  refine ⟨x ++ a, b, by rw [hab]; simp [List.append_assoc], ?_, hr⟩
  intro d hd
  rw [List.getLast?_append] at hd
  cases ha : a.getLast? with
  | none => rw [ha] at hd; exact hx d (by simpa [Option.or] using hd)
  | some e => rw [ha] at hd; exact hl d (by rw [ha]; simpa [Option.or] using hd)

lemma tokenOccurs_joinComma_elim {u : List Char} (hu : u ≠ []) (hcomma : ',' ∉ u)
    (es : List (List Char)) (h : TokenOccurs (joinComma es) u) :
    ∃ e ∈ es, TokenOccurs e u := by
  induction es with
  | nil => exact absurd h (tokenOccurs_nil hu)
  | cons x es ih =>
    cases es with
    | nil => exact ⟨x, List.mem_cons_self x [], h⟩
    | cons y ys =>
      rw [show joinComma (x :: y :: ys) = x ++ (',' :: joinComma (y :: ys)) from rfl] at h
      rcases tokenOccurs_append_elim hcomma h with h1 | h1
      · exact ⟨x, List.mem_cons_self x _, h1⟩
      · obtain ⟨e, he, hh⟩ := ih (tokenOccurs_cons_elim hcomma hu h1)
        exact ⟨e, List.mem_cons_of_mem _ he, hh⟩

lemma tokenOccurs_joinComma_intro {u e : List Char} (es : List (List Char))
    (hlast : ∀ e' ∈ es, ∀ c, e'.getLast? = some c → c.isAlpha = false)
    (he : e ∈ es) (h : TokenOccurs e u) : TokenOccurs (joinComma es) u := by
  induction es with
  | nil => cases he
  | cons x es ih =>
    rcases List.mem_cons.mp he with rfl | he'
    · cases es with
      | nil => exact h
      | cons y ys =>
        rw [show joinComma (e :: y :: ys) = e ++ (',' :: joinComma (y :: ys)) from rfl]
        exact tokenOccurs_append_right (by intro c hc; simp at hc; rw [← hc]; decide) h
    · cases es with
      | nil => cases he'
      | cons y ys =>
        rw [show joinComma (x :: y :: ys) = x ++ (',' :: joinComma (y :: ys)) from rfl]
        have hxlast := hlast x (List.mem_cons_self x _)
        have hrec := ih (fun e' he'' c hc => hlast e' (List.mem_cons_of_mem _ he'') c hc) he'
        exact tokenOccurs_append_left hxlast (tokenOccurs_cons_intro (by decide) hrec)

/-! ### Decomposition of the serialized form around the models/projects arrays -/

lemma modelsHeader_split : modelsHeader = "\"models\":".toList ++ ['['] := by decide

lemma projectsHeader_split : projectsHeader = ']' :: (",\"projects\":".toList ++ ['[']) := by
  decide

lemma preModels_strip (st : AgentStats) : preModels (stripStats st) = preModels st := rfl

lemma stripStats_projects (st : AgentStats) : (stripStats st).projects = [] := rfl

lemma stripStats_models (st : AgentStats) :
    (stripStats st).models =
      st.models.filter fun m => !(m.model = unknownStr || m.model = syntheticStr) := rfl

lemma sJson_shape (st : AgentStats) :
    sJson st = (preModels st ++ "\"models\":".toList) ++
      ('[' :: (joinComma (st.models.map renderModelEntry) ++
        (']' :: (",\"projects\":".toList ++
          ('[' :: (joinComma (st.projects.map renderProjEntry) ++ [']', '}'])))))) := by
  rw [sJson, modelsHeader_split, projectsHeader_split, show tailBrace = [']', '}'] from rfl]
  simp [List.append_assoc]

lemma sJson_strip_shape (st : AgentStats) :
    sJson (stripStats st) = (preModels st ++ "\"models\":".toList) ++
      ('[' :: (joinComma ((st.models.filter fun m =>
          !(m.model = unknownStr || m.model = syntheticStr)).map renderModelEntry) ++
        (']' :: (",\"projects\":".toList ++ ('[' :: ([']', '}'])))))) := by
  rw [sJson_shape (stripStats st), preModels_strip, stripStats_models, stripStats_projects]
  simp [joinComma]

lemma wrapBrace_last (i : List Char) : (wrapBrace i).getLast? = some '}' := by
  unfold wrapBrace
  rw [show '{' :: (i ++ ['}']) = ('{' :: i) ++ ['}'] by simp]
  exact List.getLast?_concat _

lemma renderModelEntry_last (m : ModelBreakdown) :
    (renderModelEntry m).getLast? = some '}' := by
  unfold renderModelEntry
  exact wrapBrace_last _

lemma joinComma_getLast {es : List (List Char)}
    (h : ∀ e ∈ es, e.getLast? = some '}') (hne : es ≠ []) :
    (joinComma es).getLast? = some '}' := by
  induction es with
  | nil => exact absurd rfl hne
  | cons x es ih =>
    cases es with
    | nil => exact h x (List.mem_cons_self x [])
    | cons y ys =>
      rw [show joinComma (x :: y :: ys) = x ++ (',' :: joinComma (y :: ys)) from rfl]
      rw [List.getLast?_append]
      have hrec : (joinComma (y :: ys)).getLast? = some '}' :=
        ih (fun e he => h e (List.mem_cons_of_mem _ he)) (by simp)
      have hJne : joinComma (y :: ys) ≠ [] := by
        intro hJ
        rw [hJ] at hrec
        simp at hrec
      rw [getLast?_cons_of_ne_nil hJne, hrec]
      rfl

lemma headNonAlpha_of_cons {c0 : Char} (h0 : c0.isAlpha = false) (l : List Char) :
    ∀ c, (c0 :: l).head? = some c → c.isAlpha = false := by
  intro c hc
  simp at hc
  rwa [← hc]

lemma preModels_modelsKey_last (st : AgentStats) :
    ∀ c, (preModels st ++ "\"models\":".toList).getLast? = some c → c.isAlpha = false := by
  intro c hc
  rw [List.getLast?_append, show ("\"models\":".toList).getLast? = some ':' by decide] at hc
  simp [Option.or] at hc
  rw [← hc]
  decide

lemma modelEntries_last (l : List ModelBreakdown) :
    ∀ e ∈ l.map renderModelEntry, ∀ c, e.getLast? = some c → c.isAlpha = false := by
  intro e he c hc
  obtain ⟨m, _, rfl⟩ := List.mem_map.mp he
  rw [renderModelEntry_last] at hc
  simp at hc
  rw [← hc]
  decide

lemma modelsRender_last (st : AgentStats) :
    ∀ c, (joinComma (st.models.map renderModelEntry)).getLast? = some c →
      c.isAlpha = false := by
  intro c hc
  cases hm : st.models with
  | nil => rw [hm] at hc; simp [joinComma] at hc
  | cons m ms =>
    rw [hm] at hc
    rw [@joinComma_getLast ((m :: ms).map renderModelEntry)
      (fun e he => by obtain ⟨m', _, rfl⟩ := List.mem_map.mp he; exact renderModelEntry_last m')
      (by simp)] at hc
    simp at hc
    rw [← hc]
    decide

lemma cons_infix_self (c : Char) (l : List Char) : l <:+: c :: l := ⟨[c], [], by simp⟩

/-! ### The two occurrence bridges between input and stripped serialization -/

lemma sub_bridge (st : AgentStats) (bad : List Char)
    (hclean : ∀ c ∈ bad, c ∉ junctionChars)
    (h : bad <:+: sJson (stripStats st)) : bad <:+: sJson st := by
  by_cases hb : bad = []
  · subst hb
    exact ⟨[], sJson st, by simp⟩
  have hlb : '[' ∉ bad := fun hm => hclean _ hm (by decide)
  have hrb : ']' ∉ bad := fun hm => hclean _ hm (by decide)
  have hcm : ',' ∉ bad := fun hm => hclean _ hm (by decide)
  have hbr : '}' ∉ bad := fun hm => hclean _ hm (by decide)
  rw [sJson_strip_shape] at h
  rw [sJson_shape st]
  rcases infix_append_left_junction hlb h with h1 | h1
  · exact h1.trans (infix_appendL _ _)
  · have h2 := infix_cons_junction hlb hb h1
    rcases infix_append_left_junction hrb h2 with h3 | h3
    · obtain ⟨e, he, hee⟩ := infix_joinComma_elim hb hcm _ h3
      obtain ⟨m, hm, rfl⟩ := List.mem_map.mp he
      have hmm : m ∈ st.models := List.mem_of_mem_filter hm
      have hM : bad <:+: joinComma (st.models.map renderModelEntry) :=
        hee.trans (entry_infix_joinComma _ (List.mem_map_of_mem _ hmm))
      exact hM.trans ((infix_appendL _ _).trans
        ((cons_infix_self '[' _).trans (infix_appendR _ _)))
    · have h4 := infix_cons_junction hrb hb h3
      rcases infix_append_left_junction hlb h4 with h5 | h5
      · exact h5.trans ((infix_appendL _ _).trans ((cons_infix_self ']' _).trans
          ((infix_appendR _ _).trans ((cons_infix_self '[' _).trans (infix_appendR _ _)))))
      · exfalso
        have h6 := infix_cons_junction hlb hb h5
        have hsub := h6.sublist.subset
        cases bad with
        | nil => exact hb rfl
        | cons c0 cs =>
          have hc0 := hsub (List.mem_cons_self c0 cs)
          simp at hc0
          rcases hc0 with rfl | rfl
          · exact hrb (List.mem_cons_self _ _)
          · exact hbr (List.mem_cons_self _ _)

lemma token_bridge (st : AgentStats) (u : List Char)
    (hclean : ∀ c ∈ u, c ∉ junctionChars) (hu : u ≠ [])
    (h : TokenOccurs (sJson (stripStats st)) u) : TokenOccurs (sJson st) u := by
  have hlb : '[' ∉ u := fun hm => hclean _ hm (by decide)
  have hrb : ']' ∉ u := fun hm => hclean _ hm (by decide)
  have hcm : ',' ∉ u := fun hm => hclean _ hm (by decide)
  have hbr : '}' ∉ u := fun hm => hclean _ hm (by decide)
  rw [sJson_strip_shape] at h
  rw [sJson_shape st]
  rcases tokenOccurs_append_elim hlb h with h1 | h1
  · exact tokenOccurs_append_right (headNonAlpha_of_cons
      (show ('[' : Char).isAlpha = false by decide) _) h1
  · have h2 := tokenOccurs_cons_elim hlb hu h1
    rcases tokenOccurs_append_elim hrb h2 with h3 | h3
    · obtain ⟨e, he, hee⟩ := tokenOccurs_joinComma_elim hu hcm _ h3
      obtain ⟨m, hm, rfl⟩ := List.mem_map.mp he
      have hmm : m ∈ st.models := List.mem_of_mem_filter hm
      have hM : TokenOccurs (joinComma (st.models.map renderModelEntry)) u :=
        tokenOccurs_joinComma_intro _ (modelEntries_last st.models)
          (List.mem_map_of_mem _ hmm) hee
      exact tokenOccurs_append_left (preModels_modelsKey_last st)
        (tokenOccurs_cons_intro (show ('[' : Char).isAlpha = false by decide)
          (tokenOccurs_append_right (headNonAlpha_of_cons
            (show (']' : Char).isAlpha = false by decide) _) hM))
    · have h4 := tokenOccurs_cons_elim hrb hu h3
      rcases tokenOccurs_append_elim hlb h4 with h5 | h5
      · exact tokenOccurs_append_left (preModels_modelsKey_last st)
          (tokenOccurs_cons_intro (show ('[' : Char).isAlpha = false by decide)
            (tokenOccurs_append_left (modelsRender_last st)
              (tokenOccurs_cons_intro (show (']' : Char).isAlpha = false by decide)
                (tokenOccurs_append_right (headNonAlpha_of_cons
                  (show ('[' : Char).isAlpha = false by decide) _) h5))))
      · exfalso
        have h6 := tokenOccurs_cons_elim hlb hu h5
        have hsub := (tokenOccurs_infixOf h6).sublist.subset
        cases u with
        | nil => exact hu rfl
        | cons c0 cs =>
          have hc0 := hsub (List.mem_cons_self c0 cs)
          simp at hc0
          rcases hc0 with rfl | rfl
          · exact hrb (List.mem_cons_self _ _)
          · exact hbr (List.mem_cons_self _ _)

/-! ## C6 / C7: the sanitizer's success and failure behaviour -/

lemma blocklist_clean {env : SanEnv} (henv : EnvOk env) :
    ∀ b ∈ pathBlocklist env, ∀ c ∈ b, c ∉ junctionChars := by
  have hhome : ∀ c ∈ homeSlash, c ∉ junctionChars := by decide
  have husers : ∀ c ∈ usersSlash, c ∉ junctionChars := by decide
  intro b hb c hc
  by_cases hcond : env.home = homeSlash ++ env.username
  · simp [pathBlocklist, hcond] at hb
    rcases hb with rfl | rfl
    · rcases List.mem_append.mp hc with h | h
      · exact hhome c h
      · exact henv.2 c h
    · rcases List.mem_append.mp hc with h | h
      · exact husers c h
      · exact henv.2 c h
  · simp [pathBlocklist, hcond] at hb
    rcases hb with rfl | rfl | rfl
    · exact henv.1 c hc
    · rcases List.mem_append.mp hc with h | h
      · exact hhome c h
      · exact henv.2 c h
    · rcases List.mem_append.mp hc with h | h
      · exact husers c h
      · exact henv.2 c h

lemma validateNoPii_eq (env : SanEnv) (stats : AgentStats) :
    validateNoPii env stats =
      (match (pathBlocklist env).find? (fun b => isSubB b (sJson stats)) with
       | some b => some (PIIErr.pathLeak b)
       | none =>
         if 3 ≤ env.username.length ∧ hasToken (sJson stats) env.username = true
         then some PIIErr.usernameLeak
         else
           match stats.projects.find? (fun p => hasPathFrag p.project) with
           | some p => some (PIIErr.pathFragment p.project)
           | none => none) := rfl

lemma sanitize_eq (env : SanEnv) (cfg : Config) (stats : AgentStats) :
    sanitize env cfg stats =
      (match validateNoPii env (stripStats stats) with
       | some e => Except.error e
       | none => Except.ok (stripStats stats)) := by
  have h : sanitize env cfg stats = Except.map Prod.fst
      (match validateNoPii env (stripStats stats) with
       | some e => Except.error e
       | none => Except.ok (stripStats stats, stats)) := rfl
  rw [h]
  cases validateNoPii env (stripStats stats) <;> rfl

/-- C6: for every `AgentStats` whose serialized form is free of the blocked
home-directory paths and of the username as a whole token (and for every
well-formed ambient home/username), `sanitize` succeeds, returning the
stats with the projects list emptied, the placeholder models (`unknown`,
`<synthetic>`) removed from the model breakdown, and every other field —
including all remaining model entries — unchanged. -/
theorem sanitize_clean_input_succeeds (env : SanEnv) (cfg : Config) (stats : AgentStats)
    (henv : EnvOk env)
    (hpaths : ∀ b ∈ pathBlocklist env, ¬ b <:+: sJson stats)
    (htoken : ¬ TokenOccurs (sJson stats) env.username) :
    sanitize env cfg stats = .ok { stats with
      projects := []
      models := stats.models.filter fun m =>
        !(m.model = unknownStr || m.model = syntheticStr) } := by
  have hfind : (pathBlocklist env).find? (fun b => isSubB b (sJson (stripStats stats))) = none := by
    apply List.find?_eq_none.mpr
    intro b hb hsubB
    exact hpaths b hb (sub_bridge stats b (blocklist_clean henv b hb) ((isSubB_iff _ _).mp hsubB))
  have huser : ¬ (3 ≤ env.username.length ∧
      hasToken (sJson (stripStats stats)) env.username = true) := by
    rintro ⟨hlen, htok⟩
    have hune : env.username ≠ [] := by
      intro h
      rw [h] at hlen
      simp at hlen
    exact htoken (token_bridge stats env.username henv.2 hune ((hasToken_iff hune).mp htok))
  have hval : validateNoPii env (stripStats stats) = none := by
    rw [validateNoPii_eq, hfind, if_neg huser, stripStats_projects]
    rfl
  rw [sanitize_eq, hval]
  rfl

/-- Environment of a user `dex` with home `/home/dex`, shared by the C6
witness. -/
def c6Env : SanEnv := { home := "/home/dex".toList, username := "dex".toList }

/-- Clean stats with one real model entry and one placeholder entry. -/
def c6Stats : AgentStats :=
  { models := [{ model := "claude-opus-4-6".toList, session_count := 2 },
               { model := "unknown".toList, session_count := 1 }],
    projects := [{ project := "proj".toList, agent := "codex".toList }] }

set_option maxRecDepth 1000000 in
theorem sanitize_clean_input_succeeds_witness :
    sanitize c6Env ({} : Config) c6Stats = .ok { c6Stats with
      projects := []
      models := c6Stats.models.filter fun m =>
        !(m.model = unknownStr || m.model = syntheticStr) } :=
  sanitize_clean_input_succeeds c6Env {} c6Stats ⟨by decide, by decide⟩
    (by
      intro b hb hinf
      have hfalse : isSubB b (sJson c6Stats) = false := by
        have hall : ∀ x ∈ pathBlocklist c6Env, isSubB x (sJson c6Stats) = false := by decide
        exact hall b hb
      exact absurd (((isSubB_iff _ _).mpr hinf).symm.trans hfalse) (by decide))
    (fun hocc => absurd ((hasToken_iff (by decide)).mpr hocc) (by decide))

/-- Environment of user `dex` for the C7 scenarios. -/
def c7Env : SanEnv := { home := "/home/dex".toList, username := "dex".toList }

/-- Stats whose serialization contains `codex` (so the username `dex`
occurs only inside a longer alphabetic word) and no blocked path. -/
def c7CodexStats : AgentStats :=
  { models := [{ model := "codex-large".toList, session_count := 5 }],
    favorite_model := "codex-large".toList }

/-- Stats leaking the home directory in a surviving field. -/
def c7LeakStats : AgentStats := { favorite_model := "/home/dex/secret".toList }

/-- C7: `sanitize` raises an error whenever the serialized output contains
any entry of the path blocklist (the home directory and its
`/home/{username}` and `/Users/{username}` variants), and, for usernames of
length at least 3, whenever the username occurs as a whole word-boundary
token; and it does not raise merely because the username occurs inside a
longer alphabetic word — sanitizing stats whose serialization contains
`codex` under username `dex` succeeds. -/
theorem sanitize_raises_on_pii :
    (∀ (env : SanEnv) (cfg : Config) (stats : AgentStats) (b : List Char),
      b ∈ pathBlocklist env → b <:+: sJson (stripStats stats) →
        ∃ e, sanitize env cfg stats = .error e) ∧
    (∀ (env : SanEnv) (cfg : Config) (stats : AgentStats),
      3 ≤ env.username.length → TokenOccurs (sJson (stripStats stats)) env.username →
        ∃ e, sanitize env cfg stats = .error e) ∧
    sanitize c7Env ({} : Config) c7CodexStats = .ok (stripStats c7CodexStats) := by
  refine ⟨?_, ?_, ?_⟩
  · intro env cfg stats b hb hinf
    have hsub : isSubB b (sJson (stripStats stats)) = true := (isSubB_iff _ _).mpr hinf
    cases hfind : (pathBlocklist env).find? (fun x => isSubB x (sJson (stripStats stats))) with
    | none =>
      exact absurd hsub (by simpa using List.find?_eq_none.mp hfind b hb)
    | some b' =>
      refine ⟨.pathLeak b', ?_⟩
      have hval : validateNoPii env (stripStats stats) = some (.pathLeak b') := by
        rw [validateNoPii_eq, hfind]
      rw [sanitize_eq, hval]
  · intro env cfg stats hlen htok
    have hune : env.username ≠ [] := by
      intro h
      rw [h] at hlen
      simp at hlen
    have htokB : hasToken (sJson (stripStats stats)) env.username = true :=
      (hasToken_iff hune).mpr htok
    cases hfind : (pathBlocklist env).find? (fun x => isSubB x (sJson (stripStats stats))) with
    | some b' =>
      refine ⟨.pathLeak b', ?_⟩
      have hval : validateNoPii env (stripStats stats) = some (.pathLeak b') := by
        rw [validateNoPii_eq, hfind]
      rw [sanitize_eq, hval]
    | none =>
      refine ⟨.usernameLeak, ?_⟩
      have hval : validateNoPii env (stripStats stats) = some .usernameLeak := by
        rw [validateNoPii_eq, hfind, if_pos ⟨hlen, htokB⟩]
      rw [sanitize_eq, hval]
  · set_option maxRecDepth 1000000 in decide

set_option maxRecDepth 1000000 in
theorem sanitize_raises_on_pii_witness :
    (∃ e, sanitize c7Env ({} : Config) c7LeakStats = .error e) ∧
    sanitize c7Env ({} : Config) c7CodexStats = .ok (stripStats c7CodexStats) :=
  ⟨sanitize_raises_on_pii.1 c7Env {} c7LeakStats "/home/dex".toList (by decide)
     ((isSubB_iff _ _).mp (by decide)),
   sanitize_raises_on_pii.2.2⟩

end VibeClock
